import Mathlib

/-!
# Verification of the deterministic receipt/sales-report parsing engine

Shallow embedding of the deterministic (non-AI) parsing code of this
repository:

* `src/services/receipt_parser.py` — the deterministic receipt-line parser
  (`_deterministic_parse_items`), its helpers (`_approx_equal`,
  `_enhance_item`, `_clean_item_name`, `_standardize_unit`,
  `_categorize_item`, `_get_default_expiry`), the vendor/phone extractor
  (`_extract_phone_number`) and `ProfessionalReceiptParser.parse_receipt`.
* `src/services/sales_report_parser.py` — `fallback_parsing` (row extraction
  and per-item aggregation).
* `src/python/food_validator.py` — `validate_item` and its helpers.

Conventions of the embedding:

* Python `float` values that the code parses out of decimal literals and
  combines with `+ * /`, `round`, comparisons are modelled as `ℚ`.
  `round(x, n)` is modelled as exact decimal rounding half-to-even
  (`pyRound`).
* Python strings are modelled as `List Char`; text handling in the sources
  is ASCII so `\w`, `\d`, `\s` are modelled at their ASCII meaning.
  `str.splitlines` is modelled as splitting on `'\n'` (the only line
  terminator occurring in the inputs of interest).
* Regular expressions are embedded either as bespoke recursive matchers
  (where the original pattern is deterministic) or via a small
  backtracking engine (`RE`, `reM`) whose alternative/greedy/lazy ordering
  mirrors Python `re` semantics; each pattern of the source is
  transliterated into an `RE` value next to a comment quoting the original.
-/

/- The Batteries rational arithmetic is `@[irreducible]`; re-enable plain
unfolding so that ground facts about the embedded computations can be
settled by kernel reduction (`decide`). -/
attribute [local semireducible] Rat.mul Rat.inv Rat.add Rat.sub Rat.ofScientific

namespace AWSBackend

/-! ## ASCII character classes (Python `re` classes, ASCII fragment) -/

/-- ASCII digit, Python `\d` on the ASCII inputs handled here. -/
def isDigitC (c : Char) : Bool := '0' ≤ c && c ≤ '9'

/-- ASCII letter, `[A-Za-z]`. -/
def isAlphaC (c : Char) : Bool := ('a' ≤ c && c ≤ 'z') || ('A' ≤ c && c ≤ 'Z')

/-- Python `\s`: space, tab, newline, carriage return, form feed, vertical tab. -/
def isSpaceC (c : Char) : Bool :=
  c = ' ' || c = '\t' || c = '\n' || c = '\x0d' || c = '\x0c' || c = '\x0b'

/-- Python `\w` (ASCII): letters, digits and underscore. -/
def isWordC (c : Char) : Bool := isDigitC c || isAlphaC c || c = '_'

/-- ASCII lower-casing of one character (Python `str.lower`). -/
def toLowerC (c : Char) : Char :=
  if 'A' ≤ c && c ≤ 'Z' then Char.ofNat (c.toNat + 32) else c

/-- ASCII upper-casing of one character (Python `str.upper`). -/
def toUpperC (c : Char) : Char :=
  if 'a' ≤ c && c ≤ 'z' then Char.ofNat (c.toNat - 32) else c

/-- `str.lower` over a string. -/
def toLowerL (l : List Char) : List Char := l.map toLowerC

/-- Leading whitespace removal (`\s*` consumption / left part of `str.strip`). -/
def dropSpacesL (l : List Char) : List Char := l.dropWhile (fun c => isSpaceC c)

/-- Python `str.strip()`: remove leading and trailing whitespace. -/
def pyStrip (l : List Char) : List Char :=
  ((dropSpacesL l).reverse.dropWhile (fun c => isSpaceC c)).reverse

/-- Python `str.strip(chars)`: remove leading and trailing characters of a set. -/
def pyStripChars (s : List Char) (l : List Char) : List Char :=
  (((l.dropWhile (fun c => s.contains c)).reverse.dropWhile
      (fun c => s.contains c))).reverse

/-- Split a character list on a single separator character
(Python `str.split('\n')`; also used for `str.splitlines` on `'\n'`-separated
text). -/
def splitOnC (sep : Char) : List Char → List (List Char)
  | [] => [[]]
  | c :: cs =>
    let r := splitOnC sep cs
    if c = sep then [] :: r
    else match r with
      | [] => [[c]]
      | h :: t => (c :: h) :: t

/-- `a` is a prefix of `b`, as a Bool. -/
def isPrefixB : List Char → List Char → Bool
  | [], _ => true
  | _ :: _, [] => false
  | a :: as, b :: bs => a = b && isPrefixB as bs

/-- `a` occurs as a contiguous substring of `b` (Python `a in b`). -/
def isSubstr (a : List Char) : List Char → Bool
  | [] => a.isEmpty
  | c :: cs => isPrefixB a (c :: cs) || isSubstr a cs

/-- Structural worker of `replaceAll` (the fuel dominates the input length,
and every step consumes at least one character). -/
def replaceAllGo (pat rep : List Char) : ℕ → List Char → List Char
  | 0, l => l
  | _ + 1, [] => []
  | fuel + 1, c :: cs =>
    if isPrefixB pat (c :: cs) && !pat.isEmpty then
      rep ++ replaceAllGo pat rep fuel (cs.drop (pat.length - 1))
    else
      c :: replaceAllGo pat rep fuel cs

/-- Replace every (non-overlapping, left-to-right) occurrence of `pat` in `l`
by `rep` — Python `str.replace(pat, rep)` for non-empty `pat`. -/
def replaceAll (pat rep l : List Char) : List Char :=
  replaceAllGo pat rep (l.length + 1) l

/-! ## Rational helpers: decimal literals and Python `round` -/

/-- Numeric value of a list of ASCII digits (most significant first). -/
def digitsVal (l : List Char) : ℕ :=
  l.foldl (fun acc c => acc * 10 + (c.toNat - '0'.toNat)) 0

/-- Value of a decimal literal of the shape `\d+(\.\d+)?`, the number
format produced by every numeric regex group in the sources
(Python `float(...)` applied to such a group). -/
def parseNum (l : List Char) : ℚ :=
  let intPart := l.takeWhile (fun c => isDigitC c)
  let rest := l.drop intPart.length
  match rest with
  | '.' :: frac => (digitsVal intPart : ℚ) + (digitsVal frac : ℚ) / (10 : ℚ) ^ frac.length
  | _ => (digitsVal intPart : ℚ)

/-- Round a rational to the nearest integer, ties to even
(the rounding of Python's `round`). -/
def roundHalfEven (q : ℚ) : ℤ :=
  let f := ⌊q⌋
  let r := q - f
  if r < 1/2 then f
  else if 1/2 < r then f + 1
  else if 2 ∣ f then f else f + 1

/-- Python `round(x, nd)` on an exact rational. -/
def pyRound (q : ℚ) (nd : ℕ) : ℚ :=
  (roundHalfEven (q * 10 ^ nd) : ℚ) / 10 ^ nd

/-- `ProfessionalReceiptParser._approx_equal` (src/services/receipt_parser.py,
lines 432–439): equality up to 2% relative or 0.5 absolute tolerance, with a
purely absolute comparison when either side is zero. -/
def approxEqual (a b : ℚ) (rel : ℚ := 2/100) (absTol : ℚ := 1/2) : Bool :=
  if a = 0 ∨ b = 0 then |a - b| ≤ absTol
  else |a - b| ≤ max |a| |b| * rel || |a - b| ≤ absTol

/-! ## A small backtracking regex engine

Used to embed the patterns of the source whose backtracking behaviour is
non-trivial (`dimension_pattern`, `weight_pattern`, the phone patterns).
Preference order mirrors Python `re`: `alt` prefers its left branch,
`starG`/`optG` are greedy, `starL` is lazy, and a repetition whose body
matched without consuming input stops iterating. -/

inductive RE where
  | eps
  | chr (p : Char → Bool)
  | seq (a b : RE)
  | alt (a b : RE)
  | starG (a : RE)
  | starL (a : RE)
  | optG (a : RE)
  | grp (n : ℕ) (a : RE)
  | eos
  | nWordAhead

/-- Captured groups: group number ↦ matched characters (most recent first). -/
abbrev Caps := List (ℕ × List Char)

/-- A work item of the backtracking machine: a regex still to be matched, a
pending group close (remembering the input at which the group opened), or a
pending star continuation (remembering the input length before the last
body iteration, to stop repetitions that consume nothing, as Python does). -/
inductive Frame where
  | reF (r : RE)
  | closeG (n : ℕ) (start : List Char)
  | starGF (a : RE) (lenBefore : ℕ)
  | starLF (a : RE) (lenBefore : ℕ)

/-- One backtracking alternative: frames to run, remaining input, captures. -/
abbrev ReAlt := List Frame × List Char × Caps

/-- The backtracking matcher as a small-step machine over a stack of
alternatives (head = preferred), mirroring Python `re` preference order:
`alt` prefers its left branch, `optG`/`starG` prefer matching, `starL`
prefers the continuation.  `fuel` bounds the total number of machine steps
(the callers supply far more than the actual work). -/
def reRun : ℕ → List ReAlt → Option Caps
  | 0, _ => none
  | _ + 1, [] => none
  | fuel + 1, (fs, l, caps) :: rest =>
    match fs with
    | [] => some caps
    | f :: fs' =>
      match f with
      | .reF .eps => reRun fuel ((fs', l, caps) :: rest)
      | .reF .eos =>
        if l.isEmpty then reRun fuel ((fs', l, caps) :: rest)
        else reRun fuel rest
      | .reF .nWordAhead =>
        match l with
        | [] => reRun fuel ((fs', l, caps) :: rest)
        | c :: _ =>
          if isWordC c then reRun fuel rest
          else reRun fuel ((fs', l, caps) :: rest)
      | .reF (.chr p) =>
        match l with
        | [] => reRun fuel rest
        | c :: cs =>
          if p c then reRun fuel ((fs', cs, caps) :: rest)
          else reRun fuel rest
      | .reF (.seq a b) => reRun fuel ((.reF a :: .reF b :: fs', l, caps) :: rest)
      | .reF (.alt a b) =>
        reRun fuel ((.reF a :: fs', l, caps) :: (.reF b :: fs', l, caps) :: rest)
      | .reF (.optG a) =>
        reRun fuel ((.reF a :: fs', l, caps) :: (fs', l, caps) :: rest)
      | .reF (.starG a) =>
        reRun fuel ((.reF a :: .starGF a l.length :: fs', l, caps) ::
          (fs', l, caps) :: rest)
      | .reF (.starL a) =>
        reRun fuel ((fs', l, caps) ::
          (.reF a :: .starLF a l.length :: fs', l, caps) :: rest)
      | .reF (.grp n a) => reRun fuel ((.reF a :: .closeG n l :: fs', l, caps) :: rest)
      | .closeG n start =>
        reRun fuel ((fs', l, (n, start.take (start.length - l.length)) :: caps) :: rest)
      | .starGF a len =>
        if l.length < len then
          reRun fuel ((.reF a :: .starGF a l.length :: fs', l, caps) ::
            (fs', l, caps) :: rest)
        else reRun fuel ((fs', l, caps) :: rest)
      | .starLF a len =>
        if l.length < len then
          reRun fuel ((fs', l, caps) ::
            (.reF a :: .starLF a l.length :: fs', l, caps) :: rest)
        else reRun fuel ((fs', l, caps) :: rest)

/-- Step budget for one anchored match attempt — far above the worst
backtracking work of the embedded patterns on their inputs. -/
def reFuel (l : List Char) : ℕ := 100000 + 2000 * (l.length + 1) * (l.length + 1)

/-- Anchored match (`re.match`): match `r` against a prefix of `l`,
returning the captures of the first (preferred) match. -/
def reMatchTop (r : RE) (l : List Char) : Option Caps :=
  reRun (reFuel l) [([Frame.reF r], l, [])]

/-- Unanchored search (`re.search`): first offset whose anchored match
succeeds. -/
def reSearch (r : RE) : List Char → Option Caps
  | [] => reMatchTop r []
  | c :: cs => (reMatchTop r (c :: cs)).orElse (fun _ => reSearch r cs)

/-- Value of capture group `n`. -/
def capGet (caps : Caps) (n : ℕ) : Option (List Char) :=
  (caps.find? (fun p => p.1 = n)).map (fun p => p.2)

/-- Character from an explicit set. -/
def RE.anyOf (s : List Char) : RE := .chr (fun c => s.contains c)

/-- Case-sensitive single character. -/
def RE.lit (c : Char) : RE := .chr (fun x => x = c)

/-- Case-insensitive single character (patterns compiled with
`re.IGNORECASE`). -/
def RE.litCI (c : Char) : RE := .chr (fun x => toLowerC x = toLowerC c)

/-- Case-insensitive literal word. -/
def RE.strCI (s : List Char) : RE := s.foldr (fun c r => .seq (.litCI c) r) .eps

/-- Greedy `+`. -/
def RE.plusG (a : RE) : RE := .seq a (.starG a)

/-- Lazy `+?`. -/
def RE.plusL (a : RE) : RE := .seq a (.starL a)

/-- `\d+` (greedy). -/
def RE.digitsP : RE := .plusG (.chr isDigitC)

/-- `\d+(?:\.\d+)?` (greedy). -/
def RE.numG : RE := .seq RE.digitsP (.optG (.seq (.lit '.') RE.digitsP))

/-- `\s*`. -/
def RE.wsStar : RE := .starG (.chr isSpaceC)

/-- `\s+`. -/
def RE.wsPlus : RE := .plusG (.chr isSpaceC)

/-- `.` (no DOTALL: anything but a newline). -/
def RE.dotC : RE := .chr (fun c => c ≠ '\n')

/-! ## Deterministic numeral scanners -/

/-- Greedy match of `\d+(?:\.\d+)?` at the head of `l`:
`some (matched, rest)` when `l` starts with a digit.  This is the numeric
token shape shared by all numeric groups in
`_deterministic_parse_items`' patterns and by `re.findall(r'(\d+(?:\.\d+)?)', line)`. -/
def takeNum (l : List Char) : Option (List Char × List Char) :=
  if (l.takeWhile (fun c => isDigitC c)).isEmpty then none
  else
    if (l.drop (l.takeWhile (fun c => isDigitC c)).length).head? = some '.' ∧
       ¬((l.drop (l.takeWhile (fun c => isDigitC c)).length).tail.takeWhile
           (fun c => isDigitC c)).isEmpty then
      some (l.takeWhile (fun c => isDigitC c) ++ '.' ::
              (l.drop (l.takeWhile (fun c => isDigitC c)).length).tail.takeWhile
                (fun c => isDigitC c),
            (l.drop (l.takeWhile (fun c => isDigitC c)).length).tail.drop
              ((l.drop (l.takeWhile (fun c => isDigitC c)).length).tail.takeWhile
                 (fun c => isDigitC c)).length)
    else some (l.takeWhile (fun c => isDigitC c), l.drop (l.takeWhile (fun c => isDigitC c)).length)

/-- Structural worker of `findNums`. -/
def findNumsGo : ℕ → List Char → List (List Char)
  | 0, _ => []
  | _ + 1, [] => []
  | fuel + 1, c :: cs =>
    match takeNum (c :: cs) with
    | some (n, rest) => n :: findNumsGo fuel rest
    | none => findNumsGo fuel cs

/-- `re.findall(r'(\d+(?:\.\d+)?)', line)` (receipt_parser.py line 582):
all numeric tokens of a line, leftmost non-overlapping greedy matches. -/
def findNums (l : List Char) : List (List Char) :=
  findNumsGo (l.length + 1) l

/-- Every `'.'` occurring in the list is immediately followed by a digit.
Holds for lines assembled from names without dots and numerals of the shape
`\d+(\.\d+)?`; under it the lone-trailing-decimal normalization is the
identity. -/
def dotsOk : List Char → Bool
  | [] => true
  | c :: rest =>
    if c = '.' then
      match rest with
      | c2 :: _ => isDigitC c2 && dotsOk rest
      | [] => false
    else dotsOk rest

/-- Structural worker of `loneDecimalFix`. -/
def loneDecimalFixGo : ℕ → List Char → List Char
  | 0, l => l
  | _ + 1, [] => []
  | fuel + 1, c :: cs =>
    if isDigitC c then
      match (c :: cs).drop ((c :: cs).takeWhile (fun x => isDigitC x)).length with
      | ['.'] => (c :: cs).takeWhile (fun x => isDigitC x)
      | '.' :: c2 :: r2 =>
        if isSpaceC c2 then
          (c :: cs).takeWhile (fun x => isDigitC x) ++ loneDecimalFixGo fuel (c2 :: r2)
        else
          (c :: cs).takeWhile (fun x => isDigitC x) ++ '.' :: loneDecimalFixGo fuel (c2 :: r2)
      | rest => (c :: cs).takeWhile (fun x => isDigitC x) ++ loneDecimalFixGo fuel rest
  else c :: loneDecimalFixGo fuel cs

/-- `re.sub(r'(\d+)\.(?=\s|$)', r'\1', line)` (receipt_parser.py line 483):
remove a decimal point that directly follows digits and is followed by
whitespace or end of line. -/
def loneDecimalFix (l : List Char) : List Char :=
  loneDecimalFixGo (l.length + 1) l

/-- skip-line classifier (receipt_parser.py line 476):
`re.compile(r'^(total|subtotal|tax|cash|change|thank|balance|date|time|invoice|bill)\b', re.IGNORECASE)`
applied with `.search` (equivalent to `.match` because of the `^` anchor). -/
def skipKeywords : List (List Char) :=
  [['t','o','t','a','l'], ['s','u','b','t','o','t','a','l'], ['t','a','x'],
   ['c','a','s','h'], ['c','h','a','n','g','e'], ['t','h','a','n','k'],
   ['b','a','l','a','n','c','e'], ['d','a','t','e'], ['t','i','m','e'],
   ['i','n','v','o','i','c','e'], ['b','i','l','l']]

/-- Does the skip-line pattern match `l`? -/
def skipLineB (l : List Char) : Bool :=
  let low := toLowerL l
  skipKeywords.any (fun kw =>
    isPrefixB kw low &&
      (match low.drop kw.length with
       | [] => true
       | c :: _ => !isWordC c))

/-- `re.search(r'[A-Za-z]', s)` as a Bool (receipt_parser.py line 516). -/
def containsAlphaB (l : List Char) : Bool := l.any (fun c => isAlphaC c)

/-- `re.search(r'\d+\s*[xX*]\s*\d+', s)` as a Bool (receipt_parser.py
line 516): some digits, optional spaces, a multiplication sign, optional
spaces, some digits. -/
def hasMultSub : List Char → Bool
  | [] => false
  | c :: cs =>
    (isDigitC c &&
      (let r1 := dropSpacesL ((c :: cs).dropWhile (fun x => isDigitC x))
       match r1 with
       | x :: r2 =>
         (x = 'x' || x = 'X' || x = '*') &&
           (match dropSpacesL r2 with
            | d :: _ => isDigitC d
            | [] => false)
       | [] => false)) ||
    hasMultSub cs

/-! ### Backtracking used by `re.sub(r'(\d+(?:\.\d+)?\s*){3}$', '', line)`

`(\d+(?:\.\d+)?\s*){3}` can split one digit run into several repetitions
("123" matches as "1" "2" "3"), so the sub-pattern is embedded with its
full backtracking: all remainders a numeral (resp. a space run) can leave. -/

/-- All remainders after `\d+(?:\.\d+)?` matches a (non-empty) prefix of `l`,
in some order (only existence is used). -/
def numRemainders (l : List Char) : List (List Char) :=
  let d1 := l.takeWhile (fun c => isDigitC c)
  if d1.isEmpty then []
  else
    let ints := (List.range d1.length).map (fun i => l.drop (i + 1))
    match l.drop d1.length with
    | '.' :: r2 =>
      let d2 := r2.takeWhile (fun c => isDigitC c)
      ints ++ (List.range d2.length).map (fun k => r2.drop (k + 1))
    | _ => ints

/-- All remainders after `\s*` matches a prefix of `l`. -/
def spaceRemainders (l : List Char) : List (List Char) :=
  (List.range ((l.takeWhile (fun c => isSpaceC c)).length + 1)).map (fun i => l.drop i)

/-- Does `(\d+(?:\.\d+)?\s*){3}` match `l` exactly (to its end)? -/
def rep3End (l : List Char) : Bool :=
  (numRemainders l).any (fun r1 =>
    (spaceRemainders r1).any (fun r2 =>
      (numRemainders r2).any (fun r3 =>
        (spaceRemainders r3).any (fun r4 =>
          (numRemainders r4).any (fun r5 =>
            (spaceRemainders r5).any (fun r6 => r6.isEmpty))))))

/-- `re.sub(r'(\d+(?:\.\d+)?\s*){3}$', '', line)` (receipt_parser.py
line 589): delete the leftmost (hence unique) match of three trailing
numeral-plus-spaces groups anchored at the end of the line. -/
def stripTrailing3 (l : List Char) : List Char :=
  match (List.range (l.length + 1)).find? (fun i => rep3End (l.drop i)) with
  | some i => l.take i
  | none => l

/-! ## The multiplication pattern (bespoke deterministic matcher)

`mult_pattern` (receipt_parser.py line 470):

  `^(?:(?P<name>[A-Za-z][A-Za-z0-9 /&\-\(\)]*?)\s*[-:])?\s*`
  `(?P<q>\d+(?:\.\d+)?)\s*[xX*]\s*(?P<p>\d+(?:\.\d+)?)\s*=\s*`
  `(?P<t>\d+(?:\.\d+)?)(?:\s|$)`

`bare_mult_pattern` (line 472) is the same pattern without the optional
name group.  The numeric groups being greedy followed by contexts that no
shorter numeral can satisfy (a digit or a dot would follow), greedy
non-backtracking numeral scans are equivalent to the Python engine; the
lazy name group is realised by trying split points shortest-first. -/

/-- The character class of the name groups: `[A-Za-z0-9 /&\-\(\)]`. -/
def multNameClass (c : Char) : Bool :=
  isAlphaC c || isDigitC c || c = ' ' || c = '/' || c = '&' || c = '-' ||
    c = '(' || c = ')'

/-- `bare_mult_pattern`: `^(?P<q>…)\s*[xX*]\s*(?P<p>…)\s*=\s*(?P<t>…)(?:\s|$)`. -/
def bareMultMatch (l : List Char) : Option (List Char × List Char × List Char) :=
  match takeNum l with
  | none => none
  | some (q, r1) =>
    match dropSpacesL r1 with
    | c :: r2 =>
      if c = 'x' || c = 'X' || c = '*' then
        match takeNum (dropSpacesL r2) with
        | none => none
        | some (p, r3) =>
          match dropSpacesL r3 with
          | '=' :: r4 =>
            match takeNum (dropSpacesL r4) with
            | none => none
            | some (t, r5) =>
              match r5 with
              | [] => some (q, p, t)
              | c2 :: _ => if isSpaceC c2 then some (q, p, t) else none
          | _ => none
      else none
    | [] => none

/-- What remains of `mult_pattern` after the optional name group:
`\s*` and then the bare multiplication. -/
def multTail (l : List Char) : Option (List Char × List Char × List Char) :=
  bareMultMatch (dropSpacesL l)

/-- The close attempt of the lazy name group at the current split point:
consume `\s*[-:]` and then the rest of the pattern. -/
def multNameClose (rest : List Char) :
    Option (List Char × List Char × List Char) :=
  match dropSpacesL rest with
  | c :: r' => if c = '-' || c = ':' then multTail r' else none
  | [] => none

/-- Lazy enumeration of the name-group split points: `acc` is the (non-empty)
name candidate read so far; first try to finish (`\s*[-:]` then the tail),
otherwise extend the name by one class character — exactly the preference
order of the lazy `*?`.  The fuel dominates the length of `rest`. -/
def multNameGo : ℕ → List Char → List Char →
    Option (List Char × List Char × List Char × List Char)
  | 0, _, _ => none
  | fuel + 1, acc, rest =>
    match multNameClose rest with
    | some (q, p, t) => some (acc, q, p, t)
    | none =>
      match rest with
      | [] => none
      | c :: cs =>
        if multNameClass c then multNameGo fuel (acc ++ [c]) cs else none

/-- `mult_pattern.match(line)`: first with the (greedy-optional) name group
present, then without it. -/
def multMatch (l : List Char) :
    Option (Option (List Char) × List Char × List Char × List Char) :=
  (match l with
   | c :: cs =>
     if isAlphaC c then
       match multNameGo (cs.length + 1) [c] cs with
       | some (n, q, p, t) => some (some n, q, p, t)
       | none => none
     else none
   | [] => none).orElse
  (fun _ => (multTail l).map
    (fun (x : List Char × List Char × List Char) => (none, x.1, x.2.1, x.2.2)))

/-! ## Dimension and weight patterns (via the backtracking engine) -/

/-- `[-: ]` (the separator class of `dimension_pattern`). -/
def dimSepClass (c : Char) : Bool := c = '-' || c = ':' || c = ' '

/-- The lazy name subpattern `[A-Za-z][A-Za-z0-9 /&\-\(\)]*?`, captured as
group `n`. -/
def nameLazyRE (n : ℕ) : RE :=
  .grp n (.seq (.chr (fun c => isAlphaC c)) (.starL (.chr multNameClass)))

/-- `dimension_pattern` (receipt_parser.py line 473):
`^(?P<a>\d+)\s*[xX]\s*(?P<b>\d+)\s*[-: ]+?(?P<name>[A-Za-z][A-Za-z0-9 /&\-\(\)]*?)\s*[-: ]+?(?P<price>\d+(?:\.\d+)?)$`. -/
def dimRE : RE :=
  .seq (.grp 1 .digitsP) (.seq .wsStar (.seq (.anyOf ['x', 'X'])
    (.seq .wsStar (.seq (.grp 2 .digitsP) (.seq .wsStar
      (.seq (.plusL (.chr dimSepClass)) (.seq (nameLazyRE 3)
        (.seq .wsStar (.seq (.plusL (.chr dimSepClass))
          (.seq (.grp 4 .numG) .eos))))))))))

/-- `dimension_pattern.match(line)` with its four groups. -/
def dimMatch (l : List Char) :
    Option (List Char × List Char × List Char × List Char) :=
  match reMatchTop dimRE l with
  | some caps =>
    match capGet caps 1, capGet caps 2, capGet caps 3, capGet caps 4 with
    | some a, some b, some nm, some pr => some (a, b, nm, pr)
    | _, _, _, _ => none
  | none => none

/-- The unit alternation of `weight_pattern`: `kg|kgs?|g|gm|grams?|ml|l|ltr`
(compiled with `re.IGNORECASE`), alternatives tried in source order. -/
def weightUnitRE : RE :=
  .alt (.strCI ['k', 'g'])
  (.alt (.seq (.strCI ['k', 'g']) (.optG (.litCI 's')))
  (.alt (.litCI 'g')
  (.alt (.strCI ['g', 'm'])
  (.alt (.seq (.strCI ['g', 'r', 'a', 'm']) (.optG (.litCI 's')))
  (.alt (.strCI ['m', 'l'])
  (.alt (.litCI 'l') (.strCI ['l', 't', 'r'])))))))

/-- `weight_pattern` (receipt_parser.py line 474):
`^(?P<name>[A-Za-z][A-Za-z0-9 /&\-\(\)]*?)\s+(?P<qty>\d+(?:\.\d+)?)(?P<unit>kg|kgs?|g|gm|grams?|ml|l|ltr)\b.*?(?P<price>\d+(?:\.\d+)?)(?:\s|$)`,
`re.IGNORECASE`. -/
def weightRE : RE :=
  .seq (nameLazyRE 1) (.seq .wsPlus (.seq (.grp 2 .numG)
    (.seq (.grp 3 weightUnitRE) (.seq .nWordAhead (.seq (.starL .dotC)
      (.seq (.grp 4 .numG) (.alt (.chr (fun c => isSpaceC c)) .eos)))))))

/-- `weight_pattern.match(line)` with its four groups. -/
def weightMatch (l : List Char) :
    Option (List Char × List Char × List Char × List Char) :=
  match reMatchTop weightRE l with
  | some caps =>
    match capGet caps 1, capGet caps 2, capGet caps 3, capGet caps 4 with
    | some nm, some qty, some u, some pr => some (nm, qty, u, pr)
    | _, _, _, _ => none
  | none => none

/-! ## Fixed tables and item enhancement

The `EnhancedReceiptParser` initialisation is split across the repository:
`receipt_parser.py` contains only the tail of `__init__` (its
`item_patterns` and `unit_mappings` assignments, lines 360–396); the
category table used by `_categorize_item` appears in the same class's
complete initialiser in `src/services/receipt_parser copy.py`
(lines 65–104), from which it is embedded here. -/

/-- `self.unit_mappings` (receipt_parser.py lines 385–396). -/
def unitMappingsS : List (String × String) :=
  [("kg", "kg"), ("kilogram", "kg"), ("kilo", "kg"), ("kilos", "kg"),
   ("g", "gram"), ("gm", "gram"), ("gram", "gram"), ("grams", "gram"),
   ("l", "liter"), ("ltr", "liter"), ("liter", "liter"), ("litre", "liter"),
   ("litres", "liter"),
   ("ml", "ml"), ("milliliter", "ml"), ("millilitre", "ml"),
   ("pcs", "pieces"), ("pc", "pieces"), ("piece", "pieces"),
   ("pieces", "pieces"),
   ("dozen", "dozen"), ("dz", "dozen"),
   ("packet", "packet"), ("pack", "packet"), ("pkt", "packet"),
   ("box", "box"), ("boxes", "box"),
   ("bottle", "bottle"), ("btl", "bottle"),
   ("can", "can"), ("cans", "can")]

/-- The unit table over character lists. -/
def unitMappings : List (List Char × List Char) :=
  unitMappingsS.map (fun p => (p.1.data, p.2.data))

/-- `self.categories` of `EnhancedReceiptParser`
(src/services/receipt_parser copy.py lines 65–104). -/
def categoriesS : List (String × List String) :=
  [("meat_seafood",
    ["chicken", "beef", "pork", "mutton", "fish", "lamb", "turkey",
     "prawns", "shrimp", "crab", "salmon", "tuna", "cod", "meat"]),
   ("vegetables",
    ["tomato", "onion", "potato", "carrot", "cabbage", "spinach",
     "broccoli", "cauliflower", "cucumber", "pepper", "lettuce",
     "garlic", "ginger", "beetroot", "radish", "capsicum"]),
   ("fruits",
    ["apple", "banana", "orange", "mango", "grape", "strawberry",
     "pineapple", "watermelon", "melon", "kiwi", "peach", "plum"]),
   ("dairy_eggs",
    ["milk", "cheese", "butter", "yogurt", "cream", "eggs",
     "paneer", "curd", "ghee"]),
   ("grains_bakery",
    ["rice", "wheat", "flour", "bread", "pasta", "noodles",
     "oats", "quinoa", "barley", "cereal"]),
   ("spices_condiments",
    ["salt", "pepper", "turmeric", "chili", "cumin", "coriander",
     "garam masala", "sauce", "ketchup", "vinegar", "oil"]),
   ("beverages",
    ["juice", "soda", "water", "tea", "coffee", "beer", "wine"]),
   ("household",
    ["soap", "detergent", "shampoo", "toothpaste", "tissue",
     "toilet paper", "cleaning", "dishwash", "scrubs", "sponge"]),
   ("snacks",
    ["chips", "biscuits", "cookies", "nuts", "chocolate", "candy"]),
   ("kitchen_items",
    ["spoons", "cups", "plates", "bowls", "containers", "sheet", "foil"])]

/-- The category table over character lists. -/
def categoriesT : List (List Char × List (List Char)) :=
  categoriesS.map (fun p => (p.1.data, p.2.map (fun s => s.data)))

/-- `days_map` of `_get_default_expiry` (receipt_parser.py lines 902–914). -/
def daysMapS : List (String × ℕ) :=
  [("meat_seafood", 3), ("dairy_eggs", 7), ("vegetables", 5), ("fruits", 7),
   ("grains_bakery", 30), ("spices_condiments", 365), ("beverages", 60),
   ("household", 730), ("snacks", 90), ("kitchen_items", 3650), ("other", 30)]

/-- Shelf-life lookup of `_get_default_expiry` (`days_map.get(category, 30)`);
the date arithmetic `datetime.now() + timedelta(days=days)` is abstracted to
the number of days. -/
def defaultExpiryDays (cat : List Char) : ℕ :=
  match (daysMapS.map (fun p => (p.1.data, p.2))).find? (fun p => p.1 = cat) with
  | some p => p.2
  | none => 30

/-- `_standardize_unit` (receipt_parser.py lines 876–879):
`unit_mappings.get(unit.lower().strip(), unit.lower().strip())`. -/
def standardizeUnit (u : List Char) : List Char :=
  let ul := pyStrip (toLowerL u)
  match unitMappings.find? (fun p => p.1 = ul) with
  | some p => p.2
  | none => ul

/-- Structural worker of `pySplitWS`. -/
def pySplitWSGo : ℕ → List Char → List (List Char)
  | 0, _ => []
  | _ + 1, [] => []
  | fuel + 1, c :: cs =>
    if isSpaceC c then pySplitWSGo fuel cs
    else
      ((c :: cs).takeWhile (fun x => !isSpaceC x)) ::
        pySplitWSGo fuel ((c :: cs).dropWhile (fun x => !isSpaceC x))

/-- Python `str.split()` (split on whitespace runs, no empty pieces). -/
def pySplitWS (l : List Char) : List (List Char) := pySplitWSGo (l.length + 1) l

/-- Direct keyword matching of `_categorize_item` pass 1
(`keyword in item_lower or item_lower in keyword`). -/
def matchesDirect (nameLower : List Char) (kws : List (List Char)) : Bool :=
  kws.any (fun kw => isSubstr kw nameLower || isSubstr nameLower kw)

/-- Fuzzy matching of `_categorize_item` pass 2
(`any(part in item_lower for part in keyword.split()) or
any(part in keyword for part in item_lower.split())`). -/
def matchesFuzzy (nameLower : List Char) (kws : List (List Char)) : Bool :=
  kws.any (fun kw =>
    (pySplitWS kw).any (fun part => isSubstr part nameLower) ||
    (pySplitWS nameLower).any (fun part => isSubstr part kw))

/-- First category (in table order) whose keywords match directly. -/
def directCategory (nameLower : List Char) : Option (List Char) :=
  categoriesT.findSome? (fun p =>
    if matchesDirect nameLower p.2 then some p.1 else none)

/-- First category (in table order) whose keywords match fuzzily. -/
def fuzzyCategory (nameLower : List Char) : Option (List Char) :=
  categoriesT.findSome? (fun p =>
    if matchesFuzzy nameLower p.2 then some p.1 else none)

/-- `_categorize_item` (receipt_parser.py lines 881–898): lower-case the
name, try direct containment per category in table order, then fuzzy
token overlap, else `'other'`. -/
def categorizeItem (nameRaw : List Char) : List Char :=
  let il := toLowerL nameRaw
  match directCategory il with
  | some c => c
  | none =>
    match fuzzyCategory il with
    | some c => c
    | none => ("other").data

/-- Structural worker of `collapseWS`. -/
def collapseWSGo : ℕ → List Char → List Char
  | 0, l => l
  | _ + 1, [] => []
  | fuel + 1, c :: cs =>
    if isSpaceC c then ' ' :: collapseWSGo fuel (cs.dropWhile (fun x => isSpaceC x))
    else c :: collapseWSGo fuel cs

/-- `re.sub(r'\s+', ' ', name)`: collapse every whitespace run to one space. -/
def collapseWS (l : List Char) : List Char := collapseWSGo (l.length + 1) l

/-- Python `str.title()` (ASCII): an alphabetic character is upper-cased
after a non-alphabetic one and lower-cased after an alphabetic one. -/
def pyTitleGo (prevAlpha : Bool) : List Char → List Char
  | [] => []
  | c :: cs =>
    if isAlphaC c then
      (if prevAlpha then toLowerC c else toUpperC c) :: pyTitleGo true cs
    else c :: pyTitleGo false cs

/-- Python `str.title()`. -/
def pyTitle (l : List Char) : List Char := pyTitleGo false l

/-- Structural worker of `replaceWordCI`:
`re.sub(r'\b' + re.escape(wrong) + r'\b', correct, name, flags=re.IGNORECASE)`
for a `wrong` word beginning and ending with word characters — scan with the
word-character status of the previous original character; an occurrence needs
a non-word (or absent) character on both sides. -/
def replaceWordCIGo (wrong rep : List Char) : ℕ → Bool → List Char → List Char
  | 0, _, l => l
  | _ + 1, _, [] => []
  | fuel + 1, prevWord, c :: cs =>
    if !prevWord && !wrong.isEmpty && isPrefixB (toLowerL wrong) (toLowerL (c :: cs)) &&
       (match (c :: cs).drop wrong.length with
        | [] => true
        | d :: _ => !isWordC d) then
      rep ++ replaceWordCIGo wrong rep fuel true (cs.drop (wrong.length - 1))
    else
      c :: replaceWordCIGo wrong rep fuel (isWordC c) cs

/-- Case-insensitive whole-word replacement (see `replaceWordCIGo`). -/
def replaceWordCI (wrong rep l : List Char) : List Char :=
  replaceWordCIGo wrong rep (l.length + 1) false l

/-- The OCR-correction table of `_clean_item_name`
(receipt_parser.py lines 852–862), in insertion order. -/
def ocrCorrectionsS : List (String × String) :=
  [("Loos", "Loose"), ("L005", "Loose"), ("L00S", "Loose"), ("Loo5", "Loose"),
   ("Lo0", "Loose"), ("Toor", "Tur"), ("T00R", "Tur"), ("T0OR", "Tur"),
   ("Ajinomato", "Ajinomoto")]

/-- The unit-suffix artifacts removed at the end of `_clean_item_name`
(receipt_parser.py lines 871–872), in application order. -/
def unitArtifactsS : List String := ["Kg", "Gm", "Ltr", "Pcs", "Pack"]

/-- `_clean_item_name` (receipt_parser.py lines 844–874): keep only
`[\w\s\-\.]`, collapse whitespace, strip and title-case, apply the
whole-word OCR corrections, remove the unit-suffix artifacts, strip. -/
def cleanItemName (name : List Char) : List Char :=
  let n1 := name.filter (fun c => isWordC c || isSpaceC c || c = '-' || c = '.')
  let n2 := pyTitle (pyStrip (collapseWS n1))
  let n3 := ocrCorrectionsS.foldl
    (fun acc p => replaceWordCI p.1.data p.2.data acc) n2
  pyStrip (unitArtifactsS.foldl (fun acc s => replaceAll s.data [] acc) n3)

/-- One parsed line item.  `estimated_expiry` (a date `now + days`) is
represented by its `expiryDays` offset. -/
structure Item where
  item_name : List Char
  quantity : ℚ
  unit : List Char
  unit_price : ℚ
  total_price : ℚ
  confidence : ℚ
  category : List Char
  expiryDays : ℕ
deriving DecidableEq, Repr

/-- `_enhance_item` (receipt_parser.py lines 813–842) specialised to the
deterministic branches, whose item dictionaries always carry
`item_name`, `quantity`, `unit`, `unit_price`, `total_price` and
`confidence`: clean the name, standardize the unit, fill the category from
the cleaned name and stamp the shelf-life. -/
def enhanceItem (rawName : List Char) (q p t : ℚ) (unit : List Char)
    (conf : ℚ) : Item :=
  let n := cleanItemName rawName
  let cat := categorizeItem n
  { item_name := n, quantity := q, unit := standardizeUnit unit,
    unit_price := p, total_price := t, confidence := conf,
    category := cat, expiryDays := defaultExpiryDays cat }

/-! ## `_deterministic_parse_items` (receipt_parser.py lines 441–614) -/

/-- Dedup key: `(item['item_name'].lower(), quantity, unit_price)` — the
name is the raw matched name (the key is computed before `_enhance_item`),
and only the weight branch rounds the price component. -/
abbrev DedupKey := List Char × ℚ × ℚ

/-- Loop state of `_deterministic_parse_items`: emitted items, the dedup-key
set `added_keys` (kept in insertion order) and `prev_non_empty`. -/
structure DetState where
  items : List Item
  keys : List DedupKey
  prev : Option (List Char)
deriving DecidableEq

/-- `currency_cleanup.sub('', raw_line)` with
`currency_cleanup = re.compile(r'[₹$€£]')`. -/
def currencyClean (l : List Char) : List Char :=
  l.filter (fun c => !(c = '₹' || c = '$' || c = '€' || c = '£'))

/-- The per-line normalization at the top of the loop (lines 481–483):
currency removal, strip, lone-trailing-decimal removal. -/
def normLine (l : List Char) : List Char :=
  loneDecimalFix (pyStrip (currencyClean l))

/-- The quantity chosen by the bare-triplet disambiguation heuristic
(receipt_parser.py lines 593–600): `a` when `a ≤ 20` and (`b > a` or
`b > 20`), else `b` when `b ≤ 20`, else `a`. -/
def tripletQty (a b : ℚ) : ℚ :=
  if a ≤ 20 ∧ (a < b ∨ 20 < b) then a else if b ≤ 20 then b else a

/-- The unit price paired with `tripletQty`. -/
def tripletPrice (a b : ℚ) : ℚ :=
  if a ≤ 20 ∧ (a < b ∨ 20 < b) then b else if b ≤ 20 then a else b

/-- The description left by the bare-triplet branch: the line with its three
trailing numbers removed, stripped of `-:` and spaces. -/
def tripletDesc (line : List Char) : List Char :=
  pyStripChars (("-: ").data) (stripTrailing3 line)

/-- Guarded emission shared by every branch (`if key not in added_keys:`
append the item and record the key); the branch supplies the
`prev_non_empty` value it leaves behind. -/
def emitKeyed (st : DetState) (it : Item) (key : DedupKey)
    (prv : Option (List Char)) : DetState :=
  if st.keys.contains key then { items := st.items, keys := st.keys, prev := prv }
  else { items := st.items ++ [it], keys := st.keys ++ [key], prev := prv }

/-- The bare-numeric-triplet fallback (receipt_parser.py lines 580–612).
Note: this branch never updates `prev_non_empty`. -/
def detTriplet (st : DetState) (line : List Char) : DetState :=
  if 3 ≤ (findNums line).length then
    if approxEqual
        (parseNum ((findNums line).reverse.getD 2 []) *
          parseNum ((findNums line).reverse.getD 1 []))
        (parseNum ((findNums line).reverse.getD 0 [])) then
      if (tripletDesc line).isEmpty || skipLineB (toLowerL (tripletDesc line)) then st
      else
        if 0 < tripletQty (parseNum ((findNums line).reverse.getD 2 []))
              (parseNum ((findNums line).reverse.getD 1 [])) ∧
           0 < tripletPrice (parseNum ((findNums line).reverse.getD 2 []))
              (parseNum ((findNums line).reverse.getD 1 [])) then
          emitKeyed st
            (enhanceItem (tripletDesc line)
              (tripletQty (parseNum ((findNums line).reverse.getD 2 []))
                (parseNum ((findNums line).reverse.getD 1 [])))
              (tripletPrice (parseNum ((findNums line).reverse.getD 2 []))
                (parseNum ((findNums line).reverse.getD 1 [])))
              (parseNum ((findNums line).reverse.getD 0 []))
              (("pieces").data) (8/10))
            (toLowerL (tripletDesc line),
              tripletQty (parseNum ((findNums line).reverse.getD 2 []))
                (parseNum ((findNums line).reverse.getD 1 [])),
              tripletPrice (parseNum ((findNums line).reverse.getD 2 []))
                (parseNum ((findNums line).reverse.getD 1 [])))
            st.prev
        else st
    else st
  else st

/-- The unit of the weight branch: `unit_mappings.get(raw, raw)` of the
lower-cased unit group with trailing `s` stripped. -/
def weightUnit (units : List Char) : List Char :=
  match unitMappings.find? (fun p =>
      p.1 = ((toLowerL units).reverse.dropWhile (fun c => c = 's')).reverse) with
  | some p => p.2
  | none => ((toLowerL units).reverse.dropWhile (fun c => c = 's')).reverse

/-- `price / qty if qty > 0 else price`. -/
def perUnit (price qty : ℚ) : ℚ := if 0 < qty then price / qty else price

/-- The weight branch (receipt_parser.py lines 558–578); its dedup key
rounds the unit price to 4 decimals. -/
def detWeight (st : DetState) (rawLine line : List Char) : DetState :=
  match weightMatch line with
  | some (nm, qtys, units, prices) =>
    emitKeyed st
      (enhanceItem (pyStrip nm) (parseNum qtys)
        (perUnit (parseNum prices) (parseNum qtys)) (parseNum prices)
        (weightUnit units) (85/100))
      (toLowerL (pyStrip nm), parseNum qtys,
        pyRound (perUnit (parseNum prices) (parseNum qtys)) 4)
      (some rawLine)
  | none => detTriplet st line

/-- The item name of the dimension branch:
`f"{name.strip()} ({int(a)}x{int(b)})"`. -/
def dimName (nm as_ bs : List Char) : List Char :=
  pyStrip nm ++ (" (").data ++ Nat.toDigits 10 (digitsVal as_)
    ++ [('x')] ++ Nat.toDigits 10 (digitsVal bs) ++ [(')')]

/-- The dimension branch (receipt_parser.py lines 536–556). -/
def detDim (st : DetState) (rawLine line : List Char) : DetState :=
  match dimMatch line with
  | some (as_, bs, nm, ps) =>
    emitKeyed st
      (enhanceItem (dimName nm as_ bs) (parseNum as_ * parseNum bs)
        (perUnit (parseNum ps) (parseNum as_ * parseNum bs)) (parseNum ps)
        (("pieces").data) (9/10))
      (toLowerL (dimName nm as_ bs), parseNum as_ * parseNum bs,
        perUnit (parseNum ps) (parseNum as_ * parseNum bs))
      (some rawLine)
  | none => detWeight st rawLine line

/-- One iteration of the line loop of `_deterministic_parse_items`
(receipt_parser.py lines 480–612): normalize the line, drop short and
skip lines, then try the branches in order (named multiplication, bare
multiplication referencing the previous line, dimension, weight, bare
numeric triplet). -/
def detStep (st : DetState) (rawLine : List Char) : DetState :=
  if (normLine rawLine).length < 3 then st
  else if skipLineB (normLine rawLine) then st
  else
    match multMatch (normLine rawLine) with
    | some (nameOpt, qs, ps, ts) =>
      emitKeyed st
        (enhanceItem (pyStrip (nameOpt.getD (("Unknown Item").data)))
          (parseNum qs) (parseNum ps) (parseNum ts) (("pieces").data) (95/100))
        (toLowerL (pyStrip (nameOpt.getD (("Unknown Item").data))),
          parseNum qs, parseNum ps)
        (some rawLine)
    | none =>
      match bareMultMatch (normLine rawLine), st.prev with
      | some (qs, ps, ts), some prevL =>
        if containsAlphaB prevL && !hasMultSub prevL then
          emitKeyed st
            (enhanceItem (pyStripChars (("-:").data) (pyStrip prevL))
              (parseNum qs) (parseNum ps) (parseNum ts) (("pieces").data) (9/10))
            (toLowerL (pyStripChars (("-:").data) (pyStrip prevL)),
              parseNum qs, parseNum ps)
            (some rawLine)
        else detDim st rawLine (normLine rawLine)
      | _, _ => detDim st rawLine (normLine rawLine)

/-- `lines`: `[l.strip() for l in ocr_text.splitlines() if l and l.strip()]`. -/
def detLines (text : List Char) : List (List Char) :=
  ((splitOnC '\n' text).map (fun l => pyStrip l)).filter (fun l => !l.isEmpty)

/-- The full loop state after processing `ocr_text`. -/
def detFold (text : List Char) : DetState :=
  (detLines text).foldl detStep { items := [], keys := [], prev := none }

/-- `_deterministic_parse_items(ocr_text)`. -/
def deterministicParseItems (text : List Char) : List Item :=
  if (detLines text).isEmpty then [] else (detFold text).items

/-! ## `ProfessionalReceiptParser.parse_receipt` (receipt_parser.py lines 52–88)

The Gemini call is the external AI collaborator; it is passed in as a
function argument so that the deterministic control flow around it can be
verified.  The result envelope is modelled by its `success` flag and
`items` list; the `error` string is abstracted away. -/

/-- Result envelope of `ProfessionalReceiptParser.parse_receipt`. -/
structure ProResult where
  success : Bool
  items : List Item
deriving DecidableEq

/-- `ProfessionalReceiptParser._clean_text` (lines 90–104): strip each line,
drop empty lines, re-join, truncate at 8000 characters. -/
def proCleanText (text : List Char) : List Char :=
  if text.isEmpty then []
  else
    let cleaned := List.intercalate [('\n')]
      (((splitOnC '\n' text).map (fun l => pyStrip l)).filter (fun l => !l.isEmpty))
    if 8000 < cleaned.length then cleaned.take 8000 ++ ("...[TRUNCATED]").data
    else cleaned

/-- `ProfessionalReceiptParser.parse_receipt(ocr_text)` (lines 52–88): empty
or whitespace-only text returns a failure envelope with no items; otherwise
the cleaned text goes to the external model and a non-success reply is
converted to the same failure envelope.  The Python `try/except` wrapper
(which also produces a failure envelope) needs no counterpart: the model is
total. -/
def proParseReceipt (gemini : List Char → ProResult) (ocrText : List Char) :
    ProResult :=
  if ocrText.isEmpty || (pyStrip ocrText).isEmpty then
    { success := false, items := [] }
  else
    let r := gemini (proCleanText ocrText)
    if r.success then r else { success := false, items := [] }

/-! ## `_extract_phone_number` (receipt_parser.py lines 1094–1131) -/

/-- Chain a non-empty list of alternatives left-to-right. -/
def altChain : List RE → RE
  | [] => .eps
  | [r] => r
  | r :: rs => .alt r (altChain rs)

/-- The `[:\s\-]` class. -/
def labelSepClass (c : Char) : Bool := c = ':' || isSpaceC c || c = '-'

/-- The `[+()\d]` class. -/
def phoneFirstClass (c : Char) : Bool :=
  c = '+' || c = '(' || c = ')' || isDigitC c

/-- The `[\d\s()\-+]` class. -/
def phoneBodyClass (c : Char) : Bool :=
  isDigitC c || isSpaceC c || c = '(' || c = ')' || c = '-' || c = '+'

/-- `n` copies of `r` followed by `tail` (used for `{n,}` = `n` copies then
a greedy star). -/
def repN : ℕ → RE → RE → RE
  | 0, _, tail => tail
  | n + 1, r, tail => .seq r (repN n r tail)

/-- `label_pattern` (line 1097):
`(phone|ph|tel|mobile|mob|contact|whatsapp)[:\s\-]*([+()\d][\d\s()\-+]{6,})`,
`re.IGNORECASE`, used with `re.search`. -/
def phoneLabelRE : RE :=
  .seq (.grp 1 (altChain
    [RE.strCI ("phone").data, RE.strCI ("ph").data, RE.strCI ("tel").data,
     RE.strCI ("mobile").data, RE.strCI ("mob").data,
     RE.strCI ("contact").data, RE.strCI ("whatsapp").data]))
  (.seq (.starG (.chr (fun c => labelSepClass c)))
    (.grp 2 (.seq (.chr (fun c => phoneFirstClass c))
      (repN 6 (.chr (fun c => phoneBodyClass c))
        (.starG (.chr (fun c => phoneBodyClass c)))))))

/-- The generic digit-chunk pattern (line 1106): `(\+?\d[\d\s\-()]{9,})`. -/
def genericPhoneRE : RE :=
  .grp 1 (.seq (.optG (.lit '+')) (.seq (.chr (fun c => isDigitC c))
    (repN 9 (.chr (fun c => phoneBodyClass c))
      (.starG (.chr (fun c => phoneBodyClass c))))))

/-- Structural worker of `reFindAll`. -/
def reFindAllGo (r : RE) : ℕ → List Char → List (List Char)
  | 0, _ => []
  | _ + 1, [] => []
  | fuel + 1, c :: cs =>
    match reMatchTop (.grp 0 r) (c :: cs) with
    | some caps =>
      let m := (capGet caps 0).getD []
      let g := (capGet caps 1).getD []
      if m.isEmpty then g :: reFindAllGo r fuel cs
      else g :: reFindAllGo r fuel (cs.drop (m.length - 1))
    | none => reFindAllGo r fuel cs

/-- `re.findall` for a pattern with one capture group: non-overlapping
leftmost matches, each preferred (greedy) — returns the group-1 captures. -/
def reFindAll (r : RE) (l : List Char) : List (List Char) :=
  reFindAllGo r (l.length + 1) l

/-- The raw phone candidate (lines 1097–1114): group 2 of the labelled
pattern, otherwise the first generic digit chunk with 10–13 digits. -/
def extractPhoneRaw (text : List Char) : Option (List Char) :=
  match reSearch phoneLabelRE text with
  | some caps => capGet caps 2
  | none =>
    (reFindAll genericPhoneRE text).find? (fun cand =>
      let d := (cand.filter (fun c => isDigitC c)).length
      10 ≤ d && d ≤ 13)

/-- The digit-string normalization of `_extract_phone_number`
(lines 1116–1129), embedded literally — including the unreachable
`digits.startswith("1") and len(digits) == 11` branch nested under
`len(digits) >= 12`. -/
def normalizePhoneDigits (digits : List Char) : List Char :=
  if digits.length = 10 then digits
  else if digits.length = 11 && digits.headD ' ' = '0' then digits.drop 1
  else if 12 ≤ digits.length then
    if isPrefixB (("91").data) digits && 12 ≤ digits.length then
      ("+91").data ++ digits.drop (digits.length - 10)
    else if digits.headD ' ' = '1' && digits.length = 11 then
      ("+1").data ++ digits.drop (digits.length - 10)
    else '+' :: digits
  else digits

/-- `_extract_phone_number(text)`. -/
def extractPhoneNumber (text : List Char) : Option (List Char) :=
  match extractPhoneRaw text with
  | none => none
  | some raw => some (normalizePhoneDigits (raw.filter (fun c => isDigitC c)))

/-! ## `AdvancedSalesReportParser.fallback_parsing`
(src/services/sales_report_parser.py lines 89–186) -/

/-- One extracted raw row: item name, parsed quantity with its unit token,
and amount. -/
structure SRow where
  item : List Char
  quantity : ℕ
  unit : List Char
  amount : ℚ
deriving DecidableEq

/-- Structural worker of `rowSplit`. -/
def rowSplitGo : ℕ → List Char → List (List Char)
  | 0, _ => [[]]
  | _ + 1, [] => [[]]
  | fuel + 1, c :: cs =>
    if 2 ≤ ((c :: cs).takeWhile (fun x => isSpaceC x)).length then
      [] :: rowSplitGo fuel ((c :: cs).drop ((c :: cs).takeWhile (fun x => isSpaceC x)).length)
    else if c = '\t' then
      [] :: rowSplitGo fuel (cs.dropWhile (fun x => x = '\t'))
    else
      match rowSplitGo fuel cs with
      | [] => [[c]]
      | h :: t => (c :: h) :: t

/-- `re.split(r'\s{2,}|\t+', line.strip())` (sales_report_parser.py line 98):
a delimiter is a whitespace run of at least two characters, or a tab run. -/
def rowSplit (l : List Char) : List (List Char) :=
  rowSplitGo ((pyStrip l).length + 1) (pyStrip l)

/-- Quantity-and-unit parsing (lines 120–130):
`re.match(r'(\d+)\s*(\w+)', qstr)`, falling back to the first digit run with
unit `"units"`, else `(1, "units")`. -/
def parseQtyUnit (qstr : List Char) : ℕ × List Char :=
  let primary : Option (ℕ × List Char) :=
    match qstr with
    | c :: _ =>
      if isDigitC c then
        let ds := qstr.takeWhile (fun x => isDigitC x)
        let rest := dropSpacesL (qstr.drop ds.length)
        let ws := rest.takeWhile (fun x => isWordC x)
        if ws.isEmpty then none else some (digitsVal ds, toLowerL ws)
      else none
    | [] => none
  match primary with
  | some r => r
  | none =>
    match qstr.dropWhile (fun c => !isDigitC c) with
    | [] => (1, ("units").data)
    | ds => (digitsVal (ds.takeWhile (fun x => isDigitC x)), ("units").data)

/-- Amount parsing (lines 132–136): keep `[\d.]` only
(`re.sub(r'[^\d.]', '', amount_str)`), then Python `float`, any failure
(empty or malformed literal) giving `0`. -/
def parseAmount (s : List Char) : ℚ :=
  let clean := s.filter (fun c => isDigitC c || c = '.')
  if clean.isEmpty then 0
  else
    match splitOnC '.' clean with
    | [ip] => (digitsVal ip : ℚ)
    | [ip, fp] =>
      if ip.isEmpty && fp.isEmpty then 0
      else (digitsVal ip : ℚ) + (digitsVal fp : ℚ) / (10 : ℚ) ^ fp.length
    | _ => 0

/-- Row extraction of `fallback_parsing` (lines 90–130): keep non-blank
lines, detect the summary format from the first line, split each line into
cells, skip header-looking or too-short rows, and read
(item, quantity+unit, amount) from the format's columns. -/
def extractRows (text : List Char) : List SRow :=
  let lines := (splitOnC '\n' text).filter (fun l => !(pyStrip l).isEmpty)
  let headerLine := toLowerL (lines.headD [])
  let isSummary := isSubstr (("item").data) headerLine &&
    !isSubstr (("customer").data) headerLine
  lines.filterMap (fun line =>
    let row := rowSplit line
    let r0 := toLowerL (row.headD [])
    if isSubstr (("customer").data) r0 || isSubstr (("item").data) r0 ||
       row.length < 3 then none
    else
      let fields : Option (List Char × List Char × List Char) :=
        if isSummary then
          some (pyStrip (row.getD 0 []), pyStrip (row.getD 1 []),
                pyStrip ((row.getD 2 []).filter (fun c => !(c = '₹' || c = ','))))
        else if row.length < 4 then none
        else
          some (pyStrip (row.getD 1 []), pyStrip (row.getD 2 []),
                pyStrip ((row.getD 3 []).filter (fun c => !(c = '₹' || c = ','))))
      fields.map (fun f =>
        let qu := parseQtyUnit f.2.1
        { item := f.1, quantity := qu.1, unit := qu.2,
          amount := parseAmount f.2.2 }))

/-- Accumulated per-item data (`item_aggregation` values). -/
structure AggData where
  total_quantity : ℕ
  unit : List Char
  total_amount : ℚ
deriving DecidableEq

/-- One step of the aggregation (lines 138–147): sum quantity and amount
into an existing group (keeping its first-seen unit) or open a new group at
the end (dict insertion order). -/
def aggStep (m : List (List Char × AggData)) (r : SRow) :
    List (List Char × AggData) :=
  if m.any (fun p => p.1 = r.item) then
    m.map (fun p =>
      if p.1 = r.item then
        (p.1, { p.2 with total_quantity := p.2.total_quantity + r.quantity,
                         total_amount := p.2.total_amount + r.amount })
      else p)
  else m ++ [(r.item, ⟨r.quantity, r.unit, r.amount⟩)]

/-- `item_aggregation` after all rows. -/
def aggMap (rows : List SRow) : List (List Char × AggData) :=
  rows.foldl aggStep []

/-- One output item of `fallback_parsing` (lines 157–163). -/
structure SEntry where
  item_name : List Char
  total_quantity : ℕ
  unit : List Char
  unit_price : ℚ
  total_amount : ℚ
deriving DecidableEq

/-- Final per-group entry (lines 154–163): recompute
`unit_price = total_amount / total_quantity` (0 on zero quantity) and round
both monetary fields to 2 decimals. -/
def mkEntry (p : List Char × AggData) : SEntry :=
  let up : ℚ :=
    if 0 < p.2.total_quantity then p.2.total_amount / (p.2.total_quantity : ℚ)
    else 0
  { item_name := p.1, total_quantity := p.2.total_quantity, unit := p.2.unit,
    unit_price := pyRound up 2, total_amount := pyRound p.2.total_amount 2 }

/-- Stable descending insertion by `total_amount`: the element goes before
the first strictly-smaller entry — the order produced by Python's stable
`items.sort(key=lambda x: x['total_amount'], reverse=True)` (line 170). -/
def insertDesc (x : SEntry) : List SEntry → List SEntry
  | [] => [x]
  | y :: ys =>
    if y.total_amount < x.total_amount then x :: y :: ys
    else y :: insertDesc x ys

/-- Stable sort by descending `total_amount`. -/
def sortDesc (l : List SEntry) : List SEntry := l.foldr insertDesc []

/-- The aggregation part of `fallback_parsing` on a list of extracted rows:
group by exact item name, build the entries, sort by descending amount. -/
def aggregateRows (rows : List SRow) : List SEntry :=
  sortDesc ((aggMap rows).map mkEntry)

/-- The result of `fallback_parsing` (lines 149–186): sorted items plus the
summary totals; the AI-independent complementary-item counters are keyword
sums over the items and are not needed by any claim, so the model carries
the items and summary numbers. -/
structure SalesResult where
  items : List SEntry
  total_revenue : ℚ
  total_items_sold : ℕ
deriving DecidableEq

/-- `fallback_parsing(ocr_text)`. -/
def fallbackParsing (text : List Char) : SalesResult :=
  let rows := extractRows text
  let m := aggMap rows
  { items := aggregateRows rows,
    total_revenue := pyRound (m.foldl (fun acc p => acc + p.2.total_amount) 0) 2,
    total_items_sold := m.foldl (fun acc p => acc + p.2.total_quantity) 0 }

/-! ## The standalone food validator (src/python/food_validator.py) -/

/-- `ALLOWED_CATEGORIES` (food_validator.py lines 31–34). -/
def allowedCategoriesS : List String :=
  ["meat", "seafood", "vegetables", "dairy", "spices", "grains", "beverages",
   "oils", "fruits", "herbs", "pulses", "nuts", "condiments", "bakery",
   "eggs", "frozen", "cereals"]

/-- `FOOD_KEYWORDS` (lines 37–48). -/
def foodKeywordsS : List String :=
  ["tomato", "tomatoes", "potato", "potatoes", "onion", "onions", "garlic",
   "ginger", "chili", "chilli", "capsicum", "pepper",
   "cabbage", "carrot", "beans", "pea", "peas", "spinach", "lettuce",
   "coriander", "cilantro", "mint", "basil", "parsley", "dill",
   "chicken", "mutton", "beef", "pork", "fish", "prawn", "prawns", "shrimp",
   "salmon", "tuna", "egg", "eggs",
   "milk", "curd", "yogurt", "paneer", "cheese", "butter", "ghee", "cream",
   "rice", "wheat", "flour", "maida", "atta", "rava", "suji", "semolina",
   "corn", "oats", "barley",
   "sugar", "salt", "turmeric", "cumin", "coriander powder", "chilli powder",
   "cardamom", "cinnamon", "clove", "mustard", "fenugreek",
   "oil", "sunflower oil", "groundnut oil", "coconut oil", "olive oil",
   "apple", "banana", "orange", "mango", "grape", "grapes", "pineapple",
   "papaya", "lemon", "lime",
   "almond", "cashew", "raisins", "walnut", "peanut", "pistachio", "dates",
   "water", "soda", "juice", "tea", "coffee", "milkshake", "buttermilk"]

/-- `BLACKLIST_TERMS` (lines 51–55). -/
def blacklistTermsS : List String :=
  ["invoice", "gst", "sgst", "cgst", "igst", "bill", "token", "delivery",
   "charge", "charges", "tips", "tip", "discount",
   "room", "table", "service", "pvt", "ltd", "private", "limited", "street",
   "road", "lane", "nagar", "colony", "area", "landmark",
   "gstin", "pan", "hsn", "sac", "qty", "mrp", "rate", "amount", "total",
   "subtotal", "roundoff", "round off"]

/-- `PERSON_OR_PLACE` (lines 58–62). -/
def personOrPlaceS : List String :=
  ["ram", "shyam", "raju", "rahul", "ramesh", "suresh", "anita", "sunita",
   "priya", "amit", "rohit", "arun", "kumar",
   "shiva", "shankar", "ganesh", "krishna", "alak", "anshul", "suraj",
   "vikram", "vijay",
   "bangalore", "bengaluru", "mumbai", "delhi", "chennai", "kolkata",
   "hyderabad", "pune", "ahmedabad", "kochi", "cochin"]

/-- `MONTHS` (lines 64–65). -/
def monthsS : List String :=
  ["january", "february", "march", "april", "may", "june", "july", "august",
   "september", "october", "november", "december",
   "jan", "feb", "mar", "apr", "jun", "jul", "aug", "sep", "sept", "oct",
   "nov", "dec"]

/-- Structural worker of `alphaTokens`. -/
def alphaTokensGo : ℕ → List Char → List (List Char)
  | 0, _ => []
  | _ + 1, [] => []
  | fuel + 1, c :: cs =>
    if isAlphaC c then
      ((c :: cs).takeWhile (fun x => isAlphaC x)) ::
        alphaTokensGo fuel ((c :: cs).dropWhile (fun x => isAlphaC x))
    else alphaTokensGo fuel cs

/-- `re.findall(r"[a-zA-Z]+", lower)` — the alphabetic token runs whose set
the validator intersects with its keyword sets. -/
def alphaTokens (l : List Char) : List (List Char) := alphaTokensGo (l.length + 1) l

/-- `is_mostly_digits_or_codes` (food_validator.py lines 68–75): keep the
alphanumerics; empty → `True`; otherwise more digits than letters, or no
letters at all. -/
def isMostlyDigitsOrCodes (s : List Char) : Bool :=
  let s2 := s.filter (fun c => isAlphaC c || isDigitC c)
  if s2.isEmpty then true
  else
    (s2.filter (fun c => isDigitC c)).length >
        (s2.filter (fun c => isAlphaC c)).length ||
      (s2.filter (fun c => isAlphaC c)).length = 0

/-- `guess_category` (food_validator.py lines 78–102): a chain of keyword
containment tests in source order, returning `''` when nothing matches. -/
def guessCategory (name : List Char) : List Char :=
  let n := toLowerL name
  let has := fun (ws : List String) => ws.any (fun w => isSubstr w.data n)
  if has ["chicken", "mutton", "beef", "pork"] then ("Meat").data
  else if has ["fish", "prawn", "shrimp", "salmon", "tuna"] then ("Seafood").data
  else if has ["milk", "curd", "yogurt", "paneer", "cheese", "butter", "ghee",
               "cream"] then ("Dairy").data
  else if has ["oil", "sunflower", "groundnut", "coconut", "olive"] then
    ("Oils").data
  else if has ["turmeric", "cumin", "coriander", "cardamom", "cinnamon",
               "clove", "mustard", "fenugreek", "spice", "masala"] then
    ("Spices").data
  else if has ["rice", "wheat", "flour", "maida", "atta", "rava", "suji",
               "semolina", "oats", "barley", "corn"] then ("Grains").data
  else if has ["tea", "coffee", "juice", "soda", "water", "milkshake",
               "buttermilk"] then ("Beverages").data
  else if has ["apple", "banana", "orange", "mango", "grape", "pineapple",
               "papaya"] then ("Fruits").data
  else if has ["coriander", "cilantro", "mint", "basil", "parsley", "dill"]
    then ("Herbs").data
  else if has ["tomato", "potato", "onion", "garlic", "ginger", "cabbage",
               "carrot", "beans", "pea", "spinach", "lettuce", "capsicum",
               "pepper"] then ("Vegetables").data
  else []

/-- Output of `validate_item`; the `reason` string (an explanatory join of
messages) is abstracted away. -/
structure ValidationResult where
  valid : Bool
  confidence : ℚ
  suggested_category : List Char
  normalized_name : List Char
deriving DecidableEq

/-- The token set of `validate_item`:
`tokens = set(re.findall(r"[a-zA-Z]+", lower))` over the stripped,
lower-cased name (membership-equivalent list). -/
def validatorTokens (name : List Char) : List (List Char) :=
  alphaTokens (toLowerL (pyStrip name))

/-- `tokens & FOOD_KEYWORDS` non-empty (food_validator.py line 144). -/
def validatorHasFood (name : List Char) : Bool :=
  (validatorTokens name).any
    (fun t => (foodKeywordsS.map (fun s => s.data)).contains t)

/-- `is_mostly_digits_or_codes(lower)` on the stripped lower-cased name
(food_validator.py line 138). -/
def validatorFlagged (name : List Char) : Bool :=
  isMostlyDigitsOrCodes (toLowerL (pyStrip name))

/-- The running confidence of `validate_item` before clamping
(food_validator.py lines 112–146): start at 0.5; +0.25 for an allowed
category; −0.4 for blacklist tokens; −0.3 for person/place tokens; −0.2 for
month tokens; −0.5 when flagged as a code; +0.25 for a food keyword. -/
def validatorConfRaw (name category : List Char) : ℚ :=
  let tokens := validatorTokens name
  (if (allowedCategoriesS.map (fun s => s.data)).contains
        (toLowerL (pyStrip category)) then (1/2 : ℚ) + 1/4 else 1/2)
  - (if tokens.any (fun t => (blacklistTermsS.map (fun s => s.data)).contains t)
     then 4/10 else 0)
  - (if tokens.any (fun t => (personOrPlaceS.map (fun s => s.data)).contains t)
     then 3/10 else 0)
  - (if tokens.any (fun t => (monthsS.map (fun s => s.data)).contains t)
     then 2/10 else 0)
  - (if validatorFlagged name then 1/2 else 0)
  + (if validatorHasFood name then 1/4 else 0)

/-- `confidence = max(0.0, min(1.0, confidence))` (line 153). -/
def validatorConf (name category : List Char) : ℚ :=
  max 0 (min 1 (validatorConfRaw name category))

/-- `validate_item(name, category)` (food_validator.py lines 105–164):
empty stripped name fails outright; otherwise the clamped running
confidence is reported rounded to two decimals and the item is valid iff
that clamped confidence is at least 0.6, the name was not flagged as a code
and a food keyword is present. -/
def validateItem (name category : List Char) : ValidationResult :=
  if (pyStrip name).isEmpty then
    { valid := false, confidence := 0, suggested_category := [],
      normalized_name := [] }
  else
    { valid := decide ((6/10 : ℚ) ≤ validatorConf name category) &&
        !validatorFlagged name && validatorHasFood name,
      confidence := pyRound (validatorConf name category) 2,
      suggested_category := guessCategory (pyStrip name),
      normalized_name := toLowerL (pyStrip name) }

/-! ## Constructors and helper definitions used by the claim statements -/

/-- Does `l` consist of a digit run with an optional fractional part —
the exact language of `\d+(?:\.\d+)?` (matched completely)? -/
def isNumeralB (l : List Char) : Bool :=
  match takeNum l with
  | some (n, rest) => rest.isEmpty && n = l
  | none => false

/-- A plain item name: letters and single spaces, beginning and ending with
a letter. -/
def isNiceNameB (l : List Char) : Bool :=
  !l.isEmpty && l.all (fun c => isAlphaC c || c = ' ') &&
    isAlphaC (l.headD ' ') && isAlphaC (l.getLastD ' ')

/-- `"<name> - <q> x <p> = <t>"`. -/
def mkMultLine (name q p t : List Char) : List Char :=
  name ++ (" - ").data ++ q ++ (" x ").data ++ p ++ (" = ").data ++ t

/-- The composite key named by the deduplication claim: lower-cased emitted
item name, quantity, and unit price rounded to 4 decimals. -/
def claimDedupKey (i : Item) : DedupKey :=
  (toLowerL i.item_name, i.quantity, pyRound i.unit_price 4)

/-- Sum of the quantities of the rows with a given item name. -/
def groupQty (rows : List SRow) (n : List Char) : ℕ :=
  ((rows.filter (fun r => r.item = n)).map (fun r => r.quantity)).sum

/-- Sum of the amounts of the rows with a given item name. -/
def groupAmt (rows : List SRow) (n : List Char) : ℚ :=
  ((rows.filter (fun r => r.item = n)).map (fun r => r.amount)).sum

/-- Unit token of the first row with a given item name. -/
def firstUnit (rows : List SRow) (n : List Char) : List Char :=
  ((rows.find? (fun r => r.item = n)).map (fun r => r.unit)).getD []

/-- The fixed category vocabulary: the table's categories plus the
`'other'` default. -/
def categoryVocab : List (List Char) :=
  categoriesT.map (fun p => p.1) ++ [("other").data]

/-- `AggData` update of one row (`+= quantity`, `+= amount`; unit kept). -/
def addRow (a : AggData) (r : SRow) : AggData :=
  { a with total_quantity := a.total_quantity + r.quantity,
           total_amount := a.total_amount + r.amount }

/-! ### Concrete inputs referenced by witnesses and counterexamples -/

/-- `"Chicken - 2 x 140 = 280"` — the spec's named-multiplication example. -/
def chickenLine : List Char := ("Chicken - 2 x 140 = 280").data

/-- The same line with a lower-case name. -/
def chickenLowerLine : List Char := ("chicken - 2 x 140 = 280").data

/-- A named multiplication whose name starts with a skip keyword. -/
def dateCakeLine : List Char := ("Date Cake - 2 x 3 = 6").data

/-- A named multiplication whose total contradicts `q × p`. -/
def chickenBadLine : List Char := ("Chicken - 2 x 140 = 999").data

/-- A description line followed by a bare multiplication — the carry-over
scenario of the spec. -/
def carryOverText : List Char := ("Chicken Curry\n2 x 140 = 280").data

/-- A bare numeric triplet line. -/
def riceLine : List Char := ("Rice 3 20 60").data

/-- Two lines emitting two items that share the claimed composite
deduplication key. -/
def dedupText : List Char :=
  ("Tomato - 2 x 2.00001 = 4.00002\nTomato 2kg 4.00002").data

/-- A summary-format sales report with a non-representable average. -/
def salesText : List Char := ("Item  Qty  Amount\nDosa  3 plates  10.004").data

/-- The row extracted from `salesText`. -/
def dosaRows : List SRow :=
  [{ item := ("Dosa").data, quantity := 3, unit := ("plates").data,
     amount := 10004/1000 }]

/-- The aggregated entry produced from `dosaRows`. -/
def dosaEntry : SEntry :=
  { item_name := ("Dosa").data, total_quantity := 3, unit := ("plates").data,
    unit_price := 333/100, total_amount := 10 }

/-- The start state of the line loop. -/
def detInit : DetState := { items := [], keys := [], prev := none }

/-- The all-zero item used as a `getD` default in ground statements. -/
def dummyItem : Item :=
  { item_name := [], quantity := 0, unit := [], unit_price := 0,
    total_price := 0, confidence := 0, category := [], expiryDays := 0 }

/-- Phone-extraction example inputs. -/
def phoneText1 : List Char := ("Ph: 98765 43210").data

/-- Second phone-extraction example input. -/
def phoneText2 : List Char := ("+91-98765-43210").data

/-- An 11-digit labelled phone number starting with 1. -/
def phoneText3 : List Char := ("Ph: 19876543210").data

/-! # Helper lemmas -/

/-- An `emitKeyed` call leaves items and keys unchanged or appends the item
together with its freshly-stored key. -/
theorem emitKeyed_shape (st : DetState) (it : Item) (k : DedupKey)
    (prv : Option (List Char)) :
    ((emitKeyed st it k prv).items = st.items ∧
       (emitKeyed st it k prv).keys = st.keys) ∨
    ((emitKeyed st it k prv).items = st.items ++ [it] ∧
       (emitKeyed st it k prv).keys = st.keys ++ [k] ∧
       st.keys.contains k = false) := by
  unfold emitKeyed
  split
  · exact Or.inl ⟨rfl, rfl⟩
  · rename_i h
    exact Or.inr ⟨rfl, rfl, by simp_all⟩

/-- `emitKeyed_shape` with the appended pair packed existentially (the form
the `detStep` case analysis needs). -/
theorem emitKeyed_shape_ex (st : DetState) (it : Item) (k : DedupKey)
    (prv : Option (List Char)) :
    ((emitKeyed st it k prv).items = st.items ∧
       (emitKeyed st it k prv).keys = st.keys) ∨
    (∃ it2 k2, (emitKeyed st it k prv).items = st.items ++ [it2] ∧
       (emitKeyed st it k prv).keys = st.keys ++ [k2] ∧
       st.keys.contains k2 = false) := by
  rcases emitKeyed_shape st it k prv with h | h
  · exact Or.inl h
  · exact Or.inr ⟨it, k, h.1, h.2.1, h.2.2⟩

/-- `detStep` either leaves items and keys unchanged or appends exactly one
item together with one freshly-stored key. -/
theorem detStep_shape (st : DetState) (l : List Char) :
    ((detStep st l).items = st.items ∧ (detStep st l).keys = st.keys) ∨
    (∃ it k, (detStep st l).items = st.items ++ [it] ∧
       (detStep st l).keys = st.keys ++ [k] ∧ st.keys.contains k = false) := by
  unfold detStep detDim detWeight detTriplet
  repeat' split
  all_goals
    first
      | exact Or.inl ⟨rfl, rfl⟩
      | exact emitKeyed_shape_ex st _ _ _

/-- `deterministicParseItems` returns exactly the items of the final loop
state. -/
theorem deterministicParseItems_eq_fold (text : List Char) :
    deterministicParseItems text = (detFold text).items := by
  unfold deterministicParseItems detFold
  split
  · rename_i h
    rw [List.isEmpty_iff] at h
    rw [h]
    rfl
  · rfl

/-- Fold invariant: the stored keys stay pairwise distinct, one per emitted
item. -/
theorem detFold_invariant (text : List Char) :
    (detFold text).keys.Nodup ∧
      (detFold text).items.length = (detFold text).keys.length := by
  unfold detFold
  generalize detLines text = ls
  have h : ∀ (ls : List (List Char)) (st : DetState), st.keys.Nodup →
      st.items.length = st.keys.length →
      (ls.foldl detStep st).keys.Nodup ∧
        (ls.foldl detStep st).items.length = (ls.foldl detStep st).keys.length := by
    intro ls
    induction ls with
    | nil => intro st h1 h2; exact ⟨h1, h2⟩
    | cons l ls ih =>
      intro st h1 h2
      refine ih (detStep st l) ?_ ?_
      · rcases detStep_shape st l with ⟨_, hk⟩ | ⟨it, k, _, hk, hfresh⟩
        · rw [hk]; exact h1
        · rw [hk]
          have : k ∉ st.keys := by
            intro hmem
            have h3 : st.keys.contains k = true := List.elem_eq_true_of_mem hmem
            rw [hfresh] at h3
            exact Bool.false_ne_true h3
          simp [List.nodup_append, h1, this]
      · rcases detStep_shape st l with ⟨hi, hk⟩ | ⟨it, k, hi, hk, _⟩
        · rw [hi, hk]; exact h2
        · rw [hi, hk]; simp [h2]
  exact h ls detInit (by simp [detInit]) (by simp [detInit])

/-! # Claim theorems -/

/-- **C4** (code_bug evaluation).  On the spec's carry-over scenario — a
description line followed by a bare `qty x price = total` line — the parser
does not name the item after the preceding description: `mult_pattern`'s
optional name group makes the named branch consume the bare line first,
emitting `'Unknown Item'` with confidence 0.95 (and `prev_non_empty` is
never set by unmatched description lines, so the dedicated carry-over
branch is unreachable). -/
theorem C4_carryover_failing_input :
    deterministicParseItems carryOverText =
      [{ item_name := ("Unknown Item").data, quantity := 2,
         unit := ("pieces").data, unit_price := 140, total_price := 280,
         confidence := 19/20, category := ("other").data, expiryDays := 30 }] ∧
    (deterministicParseItems carryOverText).map (fun i => i.item_name) ≠
      [("Chicken Curry").data] := by
  constructor
  · decide
  · decide

/-- **C5.**  `ProfessionalReceiptParser.parse_receipt` on empty or
whitespace-only input returns a `success = false` envelope with an empty
items list, whatever the external model would answer; being a total
function, it raises nothing. -/
theorem C5_empty_input (gemini : List Char → ProResult) (text : List Char)
    (h : pyStrip text = []) :
    (proParseReceipt gemini text).success = false ∧
      (proParseReceipt gemini text).items = [] := by
  unfold proParseReceipt
  have hc : (text.isEmpty || (pyStrip text).isEmpty) = true := by
    simp [h]
  rw [if_pos hc]
  exact ⟨rfl, rfl⟩

/-- Witness for C5 at a whitespace-only input. -/
theorem C5_empty_input_witness :
    (proParseReceipt (fun _ => { success := true, items := [] })
        ((" \t ").data)).success = false ∧
      (proParseReceipt (fun _ => { success := true, items := [] })
        ((" \t ").data)).items = [] :=
  C5_empty_input (fun _ => { success := true, items := [] }) ((" \t ").data)
    (by decide)

/-- **C8** (amended).  Every emission stores one composite key
(`(lowercased raw matched name, quantity, unit_price)`, the unit price being
rounded to 4 decimals in the weight branch only), and the stored keys are
pairwise distinct — one per emitted item. -/
theorem C8_dedup_keys_distinct (text : List Char) :
    (detFold text).keys.Nodup ∧
      (deterministicParseItems text).length = (detFold text).keys.length := by
  obtain ⟨h1, h2⟩ := detFold_invariant text
  exact ⟨h1, by rw [deterministicParseItems_eq_fold]; exact h2⟩

/-- Witness for C8 on a concrete two-line receipt. -/
theorem C8_dedup_keys_distinct_witness :
    (detFold dedupText).keys.Nodup ∧
      (deterministicParseItems dedupText).length = (detFold dedupText).keys.length :=
  C8_dedup_keys_distinct dedupText

/-- Counterexample to **C8** as stated: the claimed composite key rounds the
unit price to 4 decimals in *every* branch; on `dedupText` the
multiplication branch and the weight branch emit two items (the same
tomato twice) that share the claimed key, so that key does not deduplicate
and is not unique among emitted items. -/
theorem C8_counterexample :
    (deterministicParseItems dedupText).length = 2 ∧
      claimDedupKey ((deterministicParseItems dedupText).getD 0 dummyItem) =
        claimDedupKey ((deterministicParseItems dedupText).getD 1 dummyItem) := by
  constructor
  · decide
  · decide

/-- **C6** (amended).  The digit-string normalization of
`_extract_phone_number`: exactly 10 digits pass unchanged; 11 digits with a
leading 0 lose it; 12 or more digits starting `91` become `+91` plus the
last ten; any other string of 12 or more digits is prefixed with `+`; and —
contrary to the claim — 11 digits not starting with 0 are returned
unchanged (the `+1` branch sits unreachably inside the `≥ 12` case).  The
claim's two concrete extractions hold. -/
theorem C6_phone_normalization :
    (∀ d : List Char, d.length = 10 → normalizePhoneDigits d = d) ∧
    (∀ d : List Char, d.length = 11 → d.headD ' ' = '0' →
        normalizePhoneDigits d = d.drop 1) ∧
    (∀ d : List Char, 12 ≤ d.length → isPrefixB (("91").data) d = true →
        normalizePhoneDigits d = ("+91").data ++ d.drop (d.length - 10)) ∧
    (∀ d : List Char, 12 ≤ d.length → isPrefixB (("91").data) d = false →
        normalizePhoneDigits d = '+' :: d) ∧
    (∀ d : List Char, d.length = 11 → d.headD ' ' ≠ '0' →
        normalizePhoneDigits d = d) ∧
    extractPhoneNumber phoneText1 = some (("9876543210").data) ∧
    extractPhoneNumber phoneText2 = some (("+919876543210").data) := by
  refine ⟨?_, ?_, ?_, ?_, ?_, by decide, by decide⟩
  · intro d h
    unfold normalizePhoneDigits
    rw [if_pos h]
  · intro d h1 h2
    simp only [List.headD] at h2
    unfold normalizePhoneDigits
    rw [if_neg (by omega), if_pos (by simp [h1, h2, List.headD])]
  · intro d h1 h2
    unfold normalizePhoneDigits
    rw [if_neg (by omega), if_neg (by simp; omega), if_pos h1,
      if_pos (by simp [h1, h2])]
  · intro d h1 h2
    unfold normalizePhoneDigits
    rw [if_neg (by omega), if_neg (by simp; omega), if_pos h1,
      if_neg (by simp [h2]), if_neg (by simp; omega)]
  · intro d h1 h2
    simp only [List.headD] at h2
    unfold normalizePhoneDigits
    rw [if_neg (by omega), if_neg (by simp [h1, h2, List.headD]),
      if_neg (by omega)]

/-- Witness for C6: the five normalization rules at concrete digit
strings. -/
theorem C6_phone_normalization_witness :
    normalizePhoneDigits (("9876543210").data) = ("9876543210").data ∧
    normalizePhoneDigits (("09876543210").data) = (("09876543210").data).drop 1 ∧
    normalizePhoneDigits (("919876543210").data) =
      ("+91").data ++ (("919876543210").data).drop ((("919876543210").data).length - 10) ∧
    normalizePhoneDigits (("209876543210").data) = '+' :: ("209876543210").data ∧
    normalizePhoneDigits (("19876543210").data) = ("19876543210").data :=
  ⟨C6_phone_normalization.1 (("9876543210").data) (by decide),
   C6_phone_normalization.2.1 (("09876543210").data) (by decide) (by decide),
   C6_phone_normalization.2.2.1 (("919876543210").data) (by decide) (by decide),
   C6_phone_normalization.2.2.2.1 (("209876543210").data) (by decide) (by decide),
   C6_phone_normalization.2.2.2.2.1 (("19876543210").data) (by decide) (by decide)⟩

/-- Counterexample to **C6** as stated: an 11-digit number starting with 1
is *not* returned as `+1` plus the last ten digits — it comes back
unchanged, because the `startswith("1") and len == 11` test is nested
inside the `len >= 12` branch and can never fire. -/
theorem C6_counterexample :
    extractPhoneNumber phoneText3 = some (("19876543210").data) ∧
      ("19876543210").data ≠ ("+19876543210").data := by
  exact ⟨by decide, by decide⟩

/-- A successful `findSome?` comes from a first matching element: the list
splits into a non-matching prefix, the witness, and a tail. -/
theorem findSome?_decomp {α β : Type} (f : α → Option β) :
    ∀ (l : List α) (b : β), l.findSome? f = some b →
      ∃ l1 a l2, l = l1 ++ a :: l2 ∧ f a = some b ∧ ∀ x ∈ l1, f x = none := by
  intro l
  induction l with
  | nil => intro b h; simp [List.findSome?] at h
  | cons a as ih =>
    intro b h
    rw [List.findSome?_cons] at h
    cases hfa : f a with
    | some v =>
      rw [hfa] at h
      simp only [Option.some_inj] at h
      exact ⟨[], a, as, by simp, by rw [hfa, h], by simp⟩
    | none =>
      rw [hfa] at h
      simp only at h
      obtain ⟨l1, x, l2, hsplit, hx, hnone⟩ := ih b h
      refine ⟨a :: l1, x, l2, by simp [hsplit], hx, ?_⟩
      intro y hy
      rcases List.mem_cons.mp hy with rfl | hy'
      · exact hfa
      · exact hnone y hy'

/-- **C9.**  `_categorize_item` is total: on any (non-empty) name it
returns one category of the fixed vocabulary (never null or empty),
defaulting to `'other'`; a direct-containment match takes precedence over
the fuzzy pass, and within a pass the first matching category in table
order wins. -/
theorem C9_categorizer_total (n : List Char) (hn : n ≠ []) :
    categorizeItem n ∈ categoryVocab ∧
    categorizeItem n ≠ [] ∧
    (∀ c, directCategory (toLowerL n) = some c → categorizeItem n = c) ∧
    (directCategory (toLowerL n) = none →
      categorizeItem n = (fuzzyCategory (toLowerL n)).getD (("other").data)) ∧
    (∀ c, directCategory (toLowerL n) = some c →
      ∃ pre p post, categoriesT = pre ++ p :: post ∧ p.1 = c ∧
        matchesDirect (toLowerL n) p.2 = true ∧
        ∀ p' ∈ pre, matchesDirect (toLowerL n) p'.2 = false) := by
  have hmem : ∀ (g : List Char → List (List Char) → Bool) (c : List Char),
      categoriesT.findSome? (fun p => if g (toLowerL n) p.2 then some p.1 else none) =
        some c → c ∈ categoriesT.map (fun p => p.1) := by
    intro g c h
    obtain ⟨l1, a, l2, hsplit, ha, _⟩ := findSome?_decomp _ _ _ h
    have : a.1 = c := by
      by_cases hg : g (toLowerL n) a.2 = true
      · rw [if_pos hg] at ha; exact Option.some_inj.mp ha
      · rw [if_neg hg] at ha; exact absurd ha (by simp)
    rw [hsplit]
    simp only [List.map_append, List.map_cons, List.mem_append, List.mem_cons]
    exact Or.inr (Or.inl this.symm)
  have hmemTop : categorizeItem n ∈ categoryVocab := by
    simp only [categorizeItem, categoryVocab]
    cases hd : directCategory (toLowerL n) with
    | some c =>
      exact List.mem_append.mpr (Or.inl (hmem matchesDirect c hd))
    | none =>
      cases hf : fuzzyCategory (toLowerL n) with
      | some c =>
        exact List.mem_append.mpr (Or.inl (hmem matchesFuzzy c hf))
      | none => simp
  refine ⟨hmemTop, ?_, ?_, ?_, ?_⟩
  · have hvocab : ∀ v ∈ categoryVocab, v ≠ [] := by decide
    exact hvocab _ hmemTop
  · intro c hd
    simp only [categorizeItem]
    rw [hd]
  · intro hd
    simp only [categorizeItem]
    rw [hd]
    cases hf : fuzzyCategory (toLowerL n) <;> simp
  · intro c hd
    obtain ⟨l1, a, l2, hsplit, ha, hnone⟩ := findSome?_decomp _ _ _ hd
    by_cases hg : matchesDirect (toLowerL n) a.2 = true
    · rw [if_pos hg] at ha
      refine ⟨l1, a, l2, hsplit, Option.some_inj.mp ha, hg, ?_⟩
      intro p' hp'
      have := hnone p' hp'
      by_cases hg' : matchesDirect (toLowerL n) p'.2 = true
      · rw [if_pos hg'] at this; exact absurd this (by simp)
      · exact Bool.of_not_eq_true hg'
    · rw [if_neg hg] at ha; exact absurd ha (by simp)

/-- Witness for C9 at a concrete name. -/
theorem C9_categorizer_total_witness :
    categorizeItem (("Chicken").data) ∈ categoryVocab ∧
      categorizeItem (("Chicken").data) ≠ [] :=
  ⟨(C9_categorizer_total (("Chicken").data) (by decide)).1,
   (C9_categorizer_total (("Chicken").data) (by decide)).2.1⟩

/-- `roundHalfEven` returns the floor or the floor plus one. -/
theorem roundHalfEven_cases (q : ℚ) :
    roundHalfEven q = ⌊q⌋ ∨ roundHalfEven q = ⌊q⌋ + 1 := by
  unfold roundHalfEven
  dsimp only
  split_ifs <;> simp

/-- Monotonicity of the tie-to-even rounding. -/
theorem roundHalfEven_mono {a b : ℚ} (h : a ≤ b) :
    roundHalfEven a ≤ roundHalfEven b := by
  have hf : ⌊a⌋ ≤ ⌊b⌋ := Int.floor_mono h
  rcases eq_or_lt_of_le hf with heq | hlt
  · have hfloor : (⌊b⌋ : ℚ) = (⌊a⌋ : ℚ) := by rw [heq]
    have hr : a - ⌊a⌋ ≤ b - ⌊b⌋ := by
      rw [hfloor]; linarith
    unfold roundHalfEven
    dsimp only
    rw [← heq]
    rw [hfloor] at hr
    split_ifs <;> first | omega | (exfalso; linarith)
  · have h1 : roundHalfEven a ≤ ⌊a⌋ + 1 := by
      rcases roundHalfEven_cases a with h' | h' <;> omega
    have h2 : ⌊b⌋ ≤ roundHalfEven b := by
      rcases roundHalfEven_cases b with h' | h' <;> omega
    omega

/-- Monotonicity of Python rounding at a fixed number of decimals. -/
theorem pyRound_mono {a b : ℚ} (h : a ≤ b) (nd : ℕ) :
    pyRound a nd ≤ pyRound b nd := by
  unfold pyRound
  have hp : (0 : ℚ) < 10 ^ nd := by positivity
  have hm : a * 10 ^ nd ≤ b * 10 ^ nd :=
    mul_le_mul_of_nonneg_right h (le_of_lt hp)
  have := roundHalfEven_mono hm
  exact div_le_div_of_nonneg_right (by exact_mod_cast this) hp.le

/-- **C10.**  The standalone food validator: the reported confidence is
clamped to `[0, 1]`; a valid verdict requires a (rounded) confidence of at
least 0.6, a whitelisted food token, and a name not flagged as a
digits-or-code string; an empty or whitespace-only name yields
`valid = false` with confidence 0. -/
theorem C10_validator (name category : List Char) :
    (0 ≤ (validateItem name category).confidence ∧
      (validateItem name category).confidence ≤ 1) ∧
    ((validateItem name category).valid = true →
      (6/10 : ℚ) ≤ (validateItem name category).confidence ∧
        validatorHasFood name = true ∧ validatorFlagged name = false) ∧
    (pyStrip name = [] →
      (validateItem name category).valid = false ∧
        (validateItem name category).confidence = 0) := by
  have hconf0 : (0 : ℚ) ≤ validatorConf name category := le_max_left 0 _
  have hconf1 : validatorConf name category ≤ 1 :=
    max_le (by norm_num) (min_le_left 1 _)
  have hr0 : pyRound 0 2 = 0 := by decide
  have hr1 : pyRound 1 2 = 1 := by decide
  have hr6 : pyRound (6/10) 2 = 6/10 := by decide
  refine ⟨?_, ?_, ?_⟩
  · unfold validateItem
    split
    · exact ⟨le_refl 0, by norm_num⟩
    · constructor
      · have := pyRound_mono hconf0 2
        rw [hr0] at this
        exact this
      · have := pyRound_mono hconf1 2
        rw [hr1] at this
        exact this
  · intro hv
    unfold validateItem at hv
    split at hv
    · exact absurd hv (by simp)
    · simp only [Bool.and_eq_true, Bool.not_eq_true', decide_eq_true_eq] at hv
      obtain ⟨⟨hge, hfl⟩, hfood⟩ := hv
      refine ⟨?_, hfood, hfl⟩
      unfold validateItem
      split
      · rename_i hemp
        exact absurd hemp (by simp_all [List.isEmpty_iff])
      · have := pyRound_mono hge 2
        rw [hr6] at this
        exact this
  · intro hempty
    unfold validateItem
    rw [if_pos (by simp [hempty])]
    exact ⟨rfl, rfl⟩

/-- Witness for C10: a concrete valid item and a concrete empty name. -/
theorem C10_validator_witness :
    (6/10 : ℚ) ≤ (validateItem (("Tomatoes").data) (("Vegetables").data)).confidence ∧
      (validateItem (("  ").data) (("x").data)).valid = false :=
  ⟨((C10_validator (("Tomatoes").data) (("Vegetables").data)).2.1 (by decide)).1,
   ((C10_validator (("  ").data) (("x").data)).2.2 (by decide)).1⟩

/-- The disambiguation pair is positive exactly when both extracted numbers
are. -/
theorem tripletQP_pos (a b : ℚ) :
    (0 < tripletQty a b ∧ 0 < tripletPrice a b) ↔ (0 < a ∧ 0 < b) := by
  unfold tripletQty tripletPrice
  split_ifs <;> tauto

/-- On a line that no earlier pattern matches, starting from the initial
state, `detStep` runs the bare-triplet fallback. -/
theorem detStep_to_triplet (line : List Char)
    (hnorm : normLine line = line) (hlen : ¬ line.length < 3)
    (hskip : skipLineB line = false) (hmult : multMatch line = none)
    (hdim : dimMatch line = none) (hweight : weightMatch line = none) :
    detStep detInit line = detTriplet detInit line := by
  unfold detStep
  rw [hnorm, if_neg hlen, if_neg (by simp [hskip]), hmult]
  cases hb : bareMultMatch line with
  | some v =>
    show detDim detInit line line = _
    unfold detDim
    rw [hdim]
    unfold detWeight
    rw [hweight]
  | none =>
    show detDim detInit line line = _
    unfold detDim
    rw [hdim]
    unfold detWeight
    rw [hweight]

/-- Characterization of the bare-triplet fallback from the initial state:
with `(a, b, c)` the last three numeric tokens, an item is emitted exactly
under the claimed conditions, with the claimed fields. -/
theorem detTriplet_char (line : List Char) (a b c : List Char)
    (rest : List (List Char))
    (hnorm : normLine line = line) (hlen : ¬ line.length < 3)
    (hskip : skipLineB line = false) (hmult : multMatch line = none)
    (hdim : dimMatch line = none) (hweight : weightMatch line = none)
    (hnums : (findNums line).reverse = c :: b :: a :: rest) :
    (detStep detInit line).items =
      if approxEqual (parseNum a * parseNum b) (parseNum c) = true ∧
          0 < parseNum a ∧ 0 < parseNum b ∧
          tripletDesc line ≠ [] ∧
          skipLineB (toLowerL (tripletDesc line)) = false
      then [enhanceItem (tripletDesc line)
              (tripletQty (parseNum a) (parseNum b))
              (tripletPrice (parseNum a) (parseNum b))
              (parseNum c) (("pieces").data) (8/10)]
      else [] := by
  rw [detStep_to_triplet line hnorm hlen hskip hmult hdim hweight]
  have hlen3 : 3 ≤ (findNums line).length := by
    rw [← List.length_reverse, hnums]
    simp
  have h0 : (findNums line).reverse.getD 0 [] = c := by rw [hnums]; rfl
  have h1 : (findNums line).reverse.getD 1 [] = b := by rw [hnums]; rfl
  have h2 : (findNums line).reverse.getD 2 [] = a := by rw [hnums]; rfl
  unfold detTriplet
  rw [if_pos hlen3, h0, h1, h2]
  by_cases happ : approxEqual (parseNum a * parseNum b) (parseNum c) = true
  · rw [if_pos happ]
    by_cases hdesc : ((tripletDesc line).isEmpty || skipLineB (toLowerL (tripletDesc line))) = true
    · rw [if_pos hdesc]
      have : ¬ (approxEqual (parseNum a * parseNum b) (parseNum c) = true ∧
          0 < parseNum a ∧ 0 < parseNum b ∧ tripletDesc line ≠ [] ∧
          skipLineB (toLowerL (tripletDesc line)) = false) := by
        simp only [Bool.or_eq_true, List.isEmpty_iff] at hdesc
        rintro ⟨_, _, _, hne, hsk⟩
        rcases hdesc with h | h
        · exact hne h
        · rw [hsk] at h; exact Bool.false_ne_true h
      rw [if_neg this]
      rfl
    · rw [if_neg hdesc]
      simp only [Bool.or_eq_true, List.isEmpty_iff, not_or] at hdesc
      obtain ⟨hne, hsk⟩ := hdesc
      by_cases hpos : 0 < tripletQty (parseNum a) (parseNum b) ∧
          0 < tripletPrice (parseNum a) (parseNum b)
      · rw [if_pos hpos]
        have hab := (tripletQP_pos (parseNum a) (parseNum b)).mp hpos
        rw [if_pos ⟨happ, hab.1, hab.2, hne, Bool.of_not_eq_true hsk⟩]
        unfold emitKeyed
        rw [if_neg (by simp [detInit])]
        rfl
      · rw [if_neg hpos]
        have hab : ¬ (0 < parseNum a ∧ 0 < parseNum b) := by
          intro h
          exact hpos ((tripletQP_pos (parseNum a) (parseNum b)).mpr h)
        rw [if_neg (by rintro ⟨_, ha, hb, _, _⟩; exact hab ⟨ha, hb⟩)]
        rfl
  · rw [if_neg happ, if_neg (by rintro ⟨h, _⟩; exact happ h)]
    rfl

/-- From the initial state, a line matched by the multiplication pattern
emits exactly its item — with no arithmetic filtering at all. -/
theorem detStep_mult_emit (line : List Char) (nameOpt : Option (List Char))
    (qs ps ts : List Char)
    (hnorm : normLine line = line) (hlen : ¬ line.length < 3)
    (hskip : skipLineB line = false)
    (hmult : multMatch line = some (nameOpt, qs, ps, ts)) :
    (detStep detInit line).items =
      [enhanceItem (pyStrip (nameOpt.getD (("Unknown Item").data)))
        (parseNum qs) (parseNum ps) (parseNum ts) (("pieces").data) (95/100)] := by
  unfold detStep
  rw [hnorm, if_neg hlen, if_neg (by simp [hskip]), hmult]
  show (emitKeyed detInit _ _ _).items = _
  unfold emitKeyed
  rw [if_neg (by simp [detInit])]
  rfl

/-- **C2** (as stated).  For a candidate line not matching the
multiplication, dimension or weight patterns, with `(a, b, c)` the last
three numeric tokens: an item is emitted iff `a*b ≈ c` (2% relative / 0.5
absolute), both are positive, and the number-stripped description is
non-empty and not a skip line; the quantity/price are assigned by the
`≤ 20` heuristic and the confidence is 0.8. -/
theorem C2_triplet_fallback (line : List Char) (a b c : List Char)
    (rest : List (List Char))
    (hnorm : normLine line = line) (hlen : ¬ line.length < 3)
    (hskip : skipLineB line = false) (hmult : multMatch line = none)
    (hdim : dimMatch line = none) (hweight : weightMatch line = none)
    (hnums : (findNums line).reverse = c :: b :: a :: rest) :
    (detStep detInit line).items =
      if approxEqual (parseNum a * parseNum b) (parseNum c) = true ∧
          0 < parseNum a ∧ 0 < parseNum b ∧
          tripletDesc line ≠ [] ∧
          skipLineB (toLowerL (tripletDesc line)) = false
      then [enhanceItem (tripletDesc line)
              (tripletQty (parseNum a) (parseNum b))
              (tripletPrice (parseNum a) (parseNum b))
              (parseNum c) (("pieces").data) (8/10)]
      else [] :=
  detTriplet_char line a b c rest hnorm hlen hskip hmult hdim hweight hnums

/-- Witness for C2: the triplet line `"Rice 3 20 60"` emits
`Rice, 3 × 20 = 60` with confidence 0.8; the rejected line
`"Rice 3 20 90"` (product far from the total) emits nothing. -/
theorem C2_triplet_fallback_witness :
    (detStep detInit (("Rice 3 20 60").data)).items =
      [enhanceItem (tripletDesc (("Rice 3 20 60").data)) 3 20 60
        (("pieces").data) (8/10)] ∧
    (detStep detInit (("Rice 3 20 90").data)).items = [] := by
  constructor
  · have h := C2_triplet_fallback (("Rice 3 20 60").data)
      (("3").data) (("20").data) (("60").data) [] (by decide) (by decide)
      (by decide) (by decide) (by decide) (by decide) (by decide)
    rw [h, if_pos (by refine ⟨by decide, by decide, by decide, by decide, by decide⟩)]
    have hq : tripletQty (parseNum (("3").data)) (parseNum (("20").data)) = 3 := by decide
    have hp : tripletPrice (parseNum (("3").data)) (parseNum (("20").data)) = 20 := by decide
    rw [hq, hp]
    norm_num [parseNum]
    decide
  · have h := C2_triplet_fallback (("Rice 3 20 90").data)
      (("3").data) (("20").data) (("90").data) [] (by decide) (by decide)
      (by decide) (by decide) (by decide) (by decide) (by decide)
    rw [h, if_neg (by rintro ⟨happ, _⟩; revert happ; decide)]

/-- **C3** (amended).  Bare-triplet items always satisfy the arithmetic
cross-check `quantity × unit_price ≈ total_price`; multiplication-pattern
items are emitted with no arithmetic filtering at all (never silently
dropped), so an item whose three observed fields violate the check is
still emitted. -/
theorem C3_arithmetic_invariant :
    (∀ (line : List Char) (a b c : List Char) (rest : List (List Char)),
       normLine line = line → ¬ line.length < 3 → skipLineB line = false →
       multMatch line = none → dimMatch line = none → weightMatch line = none →
       (findNums line).reverse = c :: b :: a :: rest →
       ∀ it ∈ (detStep detInit line).items,
         approxEqual (it.quantity * it.unit_price) it.total_price = true) ∧
    (∀ (line : List Char) (nameOpt : Option (List Char)) (qs ps ts : List Char),
       normLine line = line → ¬ line.length < 3 → skipLineB line = false →
       multMatch line = some (nameOpt, qs, ps, ts) →
       (detStep detInit line).items =
         [enhanceItem (pyStrip (nameOpt.getD (("Unknown Item").data)))
           (parseNum qs) (parseNum ps) (parseNum ts) (("pieces").data) (95/100)]) := by
  constructor
  · intro line a b c rest hnorm hlen hskip hmult hdim hweight hnums it hit
    rw [detTriplet_char line a b c rest hnorm hlen hskip hmult hdim hweight hnums] at hit
    by_cases hc : approxEqual (parseNum a * parseNum b) (parseNum c) = true ∧
        0 < parseNum a ∧ 0 < parseNum b ∧ tripletDesc line ≠ [] ∧
        skipLineB (toLowerL (tripletDesc line)) = false
    · rw [if_pos hc] at hit
      have hit' : it = enhanceItem (tripletDesc line)
          (tripletQty (parseNum a) (parseNum b))
          (tripletPrice (parseNum a) (parseNum b))
          (parseNum c) (("pieces").data) (8/10) := by
        simpa using hit
      subst hit'
      have hfields :
          (enhanceItem (tripletDesc line)
            (tripletQty (parseNum a) (parseNum b))
            (tripletPrice (parseNum a) (parseNum b))
            (parseNum c) (("pieces").data) (8/10)).quantity =
              tripletQty (parseNum a) (parseNum b) ∧
          (enhanceItem (tripletDesc line)
            (tripletQty (parseNum a) (parseNum b))
            (tripletPrice (parseNum a) (parseNum b))
            (parseNum c) (("pieces").data) (8/10)).unit_price =
              tripletPrice (parseNum a) (parseNum b) ∧
          (enhanceItem (tripletDesc line)
            (tripletQty (parseNum a) (parseNum b))
            (tripletPrice (parseNum a) (parseNum b))
            (parseNum c) (("pieces").data) (8/10)).total_price = parseNum c :=
        ⟨rfl, rfl, rfl⟩
      rw [hfields.1, hfields.2.1, hfields.2.2]
      have hqp : tripletQty (parseNum a) (parseNum b) *
          tripletPrice (parseNum a) (parseNum b) = parseNum a * parseNum b := by
        unfold tripletQty tripletPrice
        split_ifs <;> ring
      rw [hqp]
      exact hc.1
    · rw [if_neg hc] at hit
      exact absurd hit (by simp)
  · intro line nameOpt qs ps ts hnorm hlen hskip hmult
    exact detStep_mult_emit line nameOpt qs ps ts hnorm hlen hskip hmult

/-- Witness for C3: the triplet guarantee at `"Rice 3 20 60"` and the
unfiltered multiplication emission at `"Chicken - 2 x 140 = 999"`. -/
theorem C3_arithmetic_invariant_witness :
    (∀ it ∈ (detStep detInit (("Rice 3 20 60").data)).items,
      approxEqual (it.quantity * it.unit_price) it.total_price = true) ∧
    (detStep detInit chickenBadLine).items =
      [enhanceItem (("Chicken").data) 2 140 999 (("pieces").data) (95/100)] := by
  constructor
  · exact C3_arithmetic_invariant.1 (("Rice 3 20 60").data)
      (("3").data) (("20").data) (("60").data) [] (by decide) (by decide)
      (by decide) (by decide) (by decide) (by decide) (by decide)
  · have h := C3_arithmetic_invariant.2 chickenBadLine (some (("Chicken").data))
      (("2").data) (("140").data) (("999").data) (by decide) (by decide)
      (by decide) (by decide)
    rw [h]
    decide

/-- Counterexample to **C3** as stated: `"Chicken - 2 x 140 = 999"` has all
three fields independently observed, is emitted, and violates the
arithmetic check. -/
theorem C3_counterexample :
    deterministicParseItems chickenBadLine =
      [{ item_name := ("Chicken").data, quantity := 2, unit := ("pieces").data,
         unit_price := 140, total_price := 999, confidence := 19/20,
         category := ("meat_seafood").data, expiryDays := 3 }] ∧
      approxEqual ((2 : ℚ) * 140) 999 = false := by
  exact ⟨by decide, by decide⟩

/-- Appending one row adds its quantity to its own group's sum only. -/
theorem groupQty_append (rows : List SRow) (r : SRow) (n : List Char) :
    groupQty (rows ++ [r]) n =
      groupQty rows n + (if r.item = n then r.quantity else 0) := by
  unfold groupQty
  by_cases h : r.item = n <;> simp [List.filter_append, h]

/-- Appending one row adds its amount to its own group's sum only. -/
theorem groupAmt_append (rows : List SRow) (r : SRow) (n : List Char) :
    groupAmt (rows ++ [r]) n =
      groupAmt rows n + (if r.item = n then r.amount else 0) := by
  unfold groupAmt
  by_cases h : r.item = n <;> simp [List.filter_append, h]

/-- Appending one row keeps the first-seen unit of an existing group and
seeds it for a new one. -/
theorem firstUnit_append (rows : List SRow) (r : SRow) (n : List Char) :
    firstUnit (rows ++ [r]) n =
      if (rows.find? (fun x => x.item = n)).isSome then firstUnit rows n
      else if r.item = n then r.unit else [] := by
  unfold firstUnit
  rw [List.find?_append]
  cases hf : rows.find? (fun x => x.item = n) with
  | some v => simp
  | none => by_cases h : r.item = n <;> simp [List.find?_cons, h]

/-- Specification of the aggregation dictionary: group names are distinct,
are exactly the row names, and each group carries its quantity sum, amount
sum, and first-seen unit. -/
theorem aggMap_spec (rows : List SRow) :
    ((aggMap rows).map Prod.fst).Nodup ∧
    (∀ n, (∃ p ∈ aggMap rows, p.1 = n) ↔ ∃ r ∈ rows, r.item = n) ∧
    ∀ p ∈ aggMap rows,
      p.2.total_quantity = groupQty rows p.1 ∧
      p.2.total_amount = groupAmt rows p.1 ∧
      p.2.unit = firstUnit rows p.1 := by
  induction rows using List.reverseRecOn with
  | nil =>
    refine ⟨List.Pairwise.nil, ?_, ?_⟩
    · intro n
      constructor
      · rintro ⟨p, hp, -⟩; exact absurd hp (List.not_mem_nil p)
      · rintro ⟨r, hr, -⟩; exact absurd hr (List.not_mem_nil r)
    · intro p hp; exact absurd hp (List.not_mem_nil p)
  | append_singleton rows r ih =>
    obtain ⟨ih1, ih2, ih3⟩ := ih
    have hstep : aggMap (rows ++ [r]) = aggStep (aggMap rows) r := by
      unfold aggMap
      rw [List.foldl_append]
      rfl
    rw [hstep]
    have hfind : ∀ n, (∃ p ∈ aggMap rows, p.1 = n) →
        (rows.find? (fun x => x.item = n)).isSome = true := by
      intro n hn
      rw [List.find?_isSome]
      obtain ⟨r', hr', hr'n⟩ := (ih2 n).mp hn
      exact ⟨r', hr', by simp [hr'n]⟩
    unfold aggStep
    by_cases hmem : (aggMap rows).any (fun p => p.1 = r.item) = true
    · rw [if_pos hmem]
      refine ⟨?_, ?_, ?_⟩
      · rw [List.map_map]
        have heq : (aggMap rows).map
            (Prod.fst ∘ fun p =>
              if p.1 = r.item then
                (p.1, { p.2 with total_quantity := p.2.total_quantity + r.quantity,
                                 total_amount := p.2.total_amount + r.amount })
              else p) = (aggMap rows).map Prod.fst :=
          List.map_congr_left (fun p _ => by
            show (if p.1 = r.item then _ else p).1 = p.1
            split <;> rfl)
        rw [heq]
        exact ih1
      · intro n
        constructor
        · rintro ⟨p, hp, hpn⟩
          rw [List.mem_map] at hp
          obtain ⟨q, hq, hqp⟩ := hp
          have hq1 : q.1 = n := by
            rw [← hpn, ← hqp]
            split <;> rfl
          obtain ⟨r', hr', hr'n⟩ := (ih2 n).mp ⟨q, hq, hq1⟩
          exact ⟨r', List.mem_append_left _ hr', hr'n⟩
        · rintro ⟨r', hr', hr'n⟩
          rcases List.mem_append.mp hr' with h | h
          · obtain ⟨q, hq, hq1⟩ := (ih2 n).mpr ⟨r', h, hr'n⟩
            refine ⟨_, List.mem_map_of_mem _ hq, ?_⟩
            split <;> exact hq1
          · rw [List.mem_singleton] at h
            subst h
            rw [List.any_eq_true] at hmem
            obtain ⟨q, hq, hqr⟩ := hmem
            have hq1 : q.1 = n := (of_decide_eq_true hqr).trans hr'n
            refine ⟨_, List.mem_map_of_mem _ hq, ?_⟩
            split <;> exact hq1
      · intro p hp
        rw [List.mem_map] at hp
        obtain ⟨q, hq, rfl⟩ := hp
        obtain ⟨hq1, hq2, hq3⟩ := ih3 q hq
        have hfs : (rows.find? (fun x => x.item = q.1)).isSome = true :=
          hfind q.1 ⟨q, hq, rfl⟩
        by_cases hqr : q.1 = r.item
        · rw [if_pos hqr]
          refine ⟨?_, ?_, ?_⟩
          · show q.2.total_quantity + r.quantity = groupQty (rows ++ [r]) q.1
            rw [groupQty_append, if_pos hqr.symm, hq1]
          · show q.2.total_amount + r.amount = groupAmt (rows ++ [r]) q.1
            rw [groupAmt_append, if_pos hqr.symm, hq2]
          · show q.2.unit = firstUnit (rows ++ [r]) q.1
            rw [firstUnit_append, if_pos hfs]
            exact hq3
        · rw [if_neg hqr]
          have hne : ¬ r.item = q.1 := fun hh => hqr hh.symm
          refine ⟨?_, ?_, ?_⟩
          · rw [groupQty_append, if_neg hne, Nat.add_zero]
            exact hq1
          · rw [groupAmt_append, if_neg hne, add_zero]
            exact hq2
          · rw [firstUnit_append, if_pos hfs]
            exact hq3
    · rw [if_neg hmem]
      have hnotin : ∀ p ∈ aggMap rows, ¬ p.1 = r.item := by
        intro p hp hpr
        apply hmem
        rw [List.any_eq_true]
        exact ⟨p, hp, by simp [hpr]⟩
      have hnorow : ¬ ∃ r' ∈ rows, r'.item = r.item := by
        intro h
        obtain ⟨p, hp, hp1⟩ := (ih2 r.item).mpr h
        exact hnotin p hp hp1
      refine ⟨?_, ?_, ?_⟩
      · rw [List.map_append]
        show (List.map Prod.fst (aggMap rows) ++ [r.item]).Nodup
        rw [List.nodup_append]
        refine ⟨ih1, List.nodup_singleton _, ?_⟩
        intro a ha hb
        rw [List.mem_singleton] at hb
        subst hb
        rw [List.mem_map] at ha
        obtain ⟨p, hp, hp1⟩ := ha
        exact hnotin p hp hp1
      · intro n
        constructor
        · rintro ⟨p, hp, hpn⟩
          rcases List.mem_append.mp hp with h | h
          · obtain ⟨r', hr', hn⟩ := (ih2 n).mp ⟨p, h, hpn⟩
            exact ⟨r', List.mem_append_left _ hr', hn⟩
          · rw [List.mem_singleton] at h
            subst h
            exact ⟨r, List.mem_append_right _ (List.mem_singleton_self r), hpn⟩
        · rintro ⟨r', hr', hn⟩
          rcases List.mem_append.mp hr' with h | h
          · obtain ⟨p, hp, hp1⟩ := (ih2 n).mpr ⟨r', h, hn⟩
            exact ⟨p, List.mem_append_left _ hp, hp1⟩
          · rw [List.mem_singleton] at h
            rw [h] at hn
            exact ⟨(r.item, AggData.mk r.quantity r.unit r.amount),
                   List.mem_append_right _ (List.mem_singleton_self _), hn⟩
      · intro p hp
        rcases List.mem_append.mp hp with h | h
        · obtain ⟨h1, h2, h3⟩ := ih3 p h
          have hfs : (rows.find? (fun x => x.item = p.1)).isSome = true :=
            hfind p.1 ⟨p, h, rfl⟩
          have hne : ¬ r.item = p.1 := fun hh => hnotin p h hh.symm
          refine ⟨?_, ?_, ?_⟩
          · rw [groupQty_append, if_neg hne, Nat.add_zero]
            exact h1
          · rw [groupAmt_append, if_neg hne, add_zero]
            exact h2
          · rw [firstUnit_append, if_pos hfs]
            exact h3
        · rw [List.mem_singleton] at h
          subst h
          have hfil : rows.filter (fun x => x.item = r.item) = [] := by
            rw [List.filter_eq_nil_iff]
            intro a ha hcontra
            exact hnorow ⟨a, ha, by simpa using hcontra⟩
          have hq0 : groupQty rows r.item = 0 := by
            unfold groupQty
            rw [hfil]
            rfl
          have ha0 : groupAmt rows r.item = 0 := by
            unfold groupAmt
            rw [hfil]
            rfl
          have hfnone : rows.find? (fun x => x.item = r.item) = none := by
            rw [List.find?_eq_none]
            intro x hx hcontra
            exact hnorow ⟨x, hx, by simpa using hcontra⟩
          refine ⟨?_, ?_, ?_⟩
          · show r.quantity = groupQty (rows ++ [r]) r.item
            rw [groupQty_append, hq0, if_pos rfl, Nat.zero_add]
          · show r.amount = groupAmt (rows ++ [r]) r.item
            rw [groupAmt_append, ha0, if_pos rfl, zero_add]
          · show r.unit = firstUnit (rows ++ [r]) r.item
            rw [firstUnit_append, hfnone]
            simp

/-- Inserting before the first strictly-smaller entry is a permutation. -/
theorem insertDesc_perm (x : SEntry) :
    ∀ l : List SEntry, List.Perm (insertDesc x l) (x :: l)
  | [] => List.Perm.refl _
  | y :: ys => by
    unfold insertDesc
    split
    · exact List.Perm.refl _
    · exact ((insertDesc_perm x ys).cons y).trans (List.Perm.swap x y ys)

/-- The descending insertion sort permutes its input. -/
theorem sortDesc_perm : ∀ l : List SEntry, List.Perm (sortDesc l) l
  | [] => List.Perm.refl _
  | x :: xs =>
    (insertDesc_perm x (sortDesc xs)).trans ((sortDesc_perm xs).cons x)

/-- Insertion preserves the descending-amount ordering. -/
theorem insertDesc_sorted (x : SEntry) :
    ∀ l : List SEntry,
      l.Pairwise (fun a b => b.total_amount ≤ a.total_amount) →
      (insertDesc x l).Pairwise (fun a b => b.total_amount ≤ a.total_amount)
  | [], _ => List.pairwise_singleton _ _
  | y :: ys, h => by
    rw [List.pairwise_cons] at h
    unfold insertDesc
    split
    · rename_i hlt
      rw [List.pairwise_cons]
      refine ⟨?_, List.pairwise_cons.mpr h⟩
      intro z hz
      rcases List.mem_cons.mp hz with rfl | hz'
      · exact le_of_lt hlt
      · exact le_trans (h.1 z hz') (le_of_lt hlt)
    · rename_i hnlt
      rw [List.pairwise_cons]
      refine ⟨?_, insertDesc_sorted x ys h.2⟩
      intro z hz
      have hz2 : z = x ∨ z ∈ ys := by
        have := (insertDesc_perm x ys).mem_iff.mp hz
        simpa using this
      rcases hz2 with rfl | hz'
      · exact not_lt.mp hnlt
      · exact h.1 z hz'

/-- The output of the descending insertion sort is pairwise descending. -/
theorem sortDesc_sorted :
    ∀ l : List SEntry,
      (sortDesc l).Pairwise (fun a b => b.total_amount ≤ a.total_amount)
  | [] => List.Pairwise.nil
  | x :: xs => insertDesc_sorted x (sortDesc xs) (sortDesc_sorted xs)

/-- **C7** (amended).  The fallback aggregator groups rows by the exact
item-name string: output names are distinct and exactly the row names;
each entry's `total_quantity` is the group's quantity sum; its
`total_amount` is the group's amount sum *rounded to 2 decimals*; its
`unit_price` is the unrounded amount sum divided by the quantity sum,
rounded to 2 decimals (0 on zero quantity); its unit is the group's
first-seen unit token; and the output is sorted by descending
`total_amount`. -/
theorem C7_aggregation (rows : List SRow) :
    ((aggregateRows rows).map SEntry.item_name).Nodup ∧
    (∀ e ∈ aggregateRows rows,
       (∃ r ∈ rows, r.item = e.item_name) ∧
       e.total_quantity = groupQty rows e.item_name ∧
       e.total_amount = pyRound (groupAmt rows e.item_name) 2 ∧
       e.unit_price = (if 0 < groupQty rows e.item_name then
           pyRound (groupAmt rows e.item_name /
             (groupQty rows e.item_name : ℚ)) 2
         else 0) ∧
       e.unit = firstUnit rows e.item_name) ∧
    (∀ r ∈ rows, ∃ e ∈ aggregateRows rows, e.item_name = r.item) ∧
    (aggregateRows rows).Pairwise
      (fun a b => b.total_amount ≤ a.total_amount) := by
  obtain ⟨h1, h2, h3⟩ := aggMap_spec rows
  have hperm : List.Perm (aggregateRows rows) ((aggMap rows).map mkEntry) :=
    sortDesc_perm _
  refine ⟨?_, ?_, ?_, ?_⟩
  · rw [(hperm.map SEntry.item_name).nodup_iff, List.map_map]
    have heq : (aggMap rows).map (SEntry.item_name ∘ mkEntry) =
        (aggMap rows).map Prod.fst :=
      List.map_congr_left (fun p _ => rfl)
    rw [heq]
    exact h1
  · intro e he
    have he' : e ∈ (aggMap rows).map mkEntry := hperm.mem_iff.mp he
    rw [List.mem_map] at he'
    obtain ⟨p, hp, rfl⟩ := he'
    obtain ⟨hq, ha, hu⟩ := h3 p hp
    refine ⟨(h2 p.1).mp ⟨p, hp, rfl⟩, hq, ?_, ?_, hu⟩
    · show pyRound p.2.total_amount 2 = pyRound (groupAmt rows p.1) 2
      rw [ha]
    · show pyRound (if 0 < p.2.total_quantity then
          p.2.total_amount / (p.2.total_quantity : ℚ) else 0) 2 =
        (if 0 < groupQty rows p.1 then
           pyRound (groupAmt rows p.1 / (groupQty rows p.1 : ℚ)) 2
         else 0)
      rw [hq, ha]
      by_cases hpos : 0 < groupQty rows p.1
      · rw [if_pos hpos, if_pos hpos]
      · rw [if_neg hpos, if_neg hpos]
        decide
  · intro r hr
    obtain ⟨p, hp, hp1⟩ := (h2 r.item).mpr ⟨r, hr, rfl⟩
    exact ⟨mkEntry p, hperm.mem_iff.mpr (List.mem_map_of_mem _ hp), hp1⟩
  · exact sortDesc_sorted _

/-- Witness for C7: the aggregation theorem instantiated at the single
Dosa row, whose entry has the claimed sums, rounded fields, and unit. -/
theorem C7_aggregation_witness :
    (∃ r ∈ dosaRows, r.item = dosaEntry.item_name) ∧
    dosaEntry.total_quantity = groupQty dosaRows dosaEntry.item_name ∧
    dosaEntry.total_amount =
      pyRound (groupAmt dosaRows dosaEntry.item_name) 2 ∧
    dosaEntry.unit_price =
      (if 0 < groupQty dosaRows dosaEntry.item_name then
         pyRound (groupAmt dosaRows dosaEntry.item_name /
           (groupQty dosaRows dosaEntry.item_name : ℚ)) 2
       else 0) ∧
    dosaEntry.unit = firstUnit dosaRows dosaEntry.item_name :=
  (C7_aggregation dosaRows).2.1 dosaEntry (by decide)

/-- Counterexample to **C7** as stated: on the summary report
`"Item  Qty  Amount\nDosa  3 plates  10.004"` the single group's amount sum
is 10.004, but the output `total_amount` is the rounded 10 and the output
`unit_price` is the rounded 3.33, not the exact quotient 10.004/3. -/
theorem C7_counterexample :
    groupAmt (extractRows salesText) (("Dosa").data) = 10004/1000 ∧
    (fallbackParsing salesText).items = [dosaEntry] ∧
    dosaEntry.total_amount ≠ 10004/1000 ∧
    dosaEntry.unit_price ≠ 10004/1000 / 3 := by
  refine ⟨by decide, by decide, by decide, by decide⟩

/-! ### Character-class facts used by the completeness proof of the
named-multiplication pattern -/

/-- Two characters on which a Boolean class disagrees are distinct. -/
theorem ne_of_bool_true_false (P : Char → Bool) (c d : Char)
    (h : P c = true) (hd : P d = false) : c ≠ d := by
  intro he
  rw [he, hd] at h
  exact Bool.false_ne_true h

/-- A letter is not whitespace. -/
theorem alpha_not_space (c : Char) (h : isAlphaC c = true) : isSpaceC c = false := by
  unfold isSpaceC
  rw [decide_eq_false (ne_of_bool_true_false isAlphaC c ' ' h (by decide)),
      decide_eq_false (ne_of_bool_true_false isAlphaC c '\t' h (by decide)),
      decide_eq_false (ne_of_bool_true_false isAlphaC c '\n' h (by decide)),
      decide_eq_false (ne_of_bool_true_false isAlphaC c '\x0d' h (by decide)),
      decide_eq_false (ne_of_bool_true_false isAlphaC c '\x0c' h (by decide)),
      decide_eq_false (ne_of_bool_true_false isAlphaC c '\x0b' h (by decide))]
  rfl

/-- A digit is not whitespace. -/
theorem digit_not_space (c : Char) (h : isDigitC c = true) : isSpaceC c = false := by
  unfold isSpaceC
  rw [decide_eq_false (ne_of_bool_true_false isDigitC c ' ' h (by decide)),
      decide_eq_false (ne_of_bool_true_false isDigitC c '\t' h (by decide)),
      decide_eq_false (ne_of_bool_true_false isDigitC c '\n' h (by decide)),
      decide_eq_false (ne_of_bool_true_false isDigitC c '\x0d' h (by decide)),
      decide_eq_false (ne_of_bool_true_false isDigitC c '\x0c' h (by decide)),
      decide_eq_false (ne_of_bool_true_false isDigitC c '\x0b' h (by decide))]
  rfl

/-- Whitespace is not a digit. -/
theorem space_not_digit (c : Char) (h : isSpaceC c = true) : isDigitC c = false := by
  unfold isSpaceC at h
  simp only [Bool.or_eq_true, decide_eq_true_eq] at h
  rcases h with ((((h | h) | h) | h) | h) | h <;> subst h <;> decide

/-- A character of the name alphabet is in the name-group class. -/
theorem multNameClass_of (c : Char) (h : isAlphaC c = true ∨ c = ' ') :
    multNameClass c = true := by
  unfold multNameClass
  rcases h with h | rfl
  · rw [h]
    rfl
  · decide

/-- No character of a parsed multiplication line is a currency symbol. -/
theorem class_not_currency (x : Char)
    (h : isAlphaC x = true ∨ isDigitC x = true ∨ x = ' ' ∨ x = '-' ∨ x = '.' ∨
      x = 'x' ∨ x = '=') :
    (!(x = '₹' || x = '$' || x = '€' || x = '£')) = true := by
  rcases h with h | h | rfl | rfl | rfl | rfl | rfl
  · rw [decide_eq_false (ne_of_bool_true_false isAlphaC x '₹' h (by decide)),
        decide_eq_false (ne_of_bool_true_false isAlphaC x '$' h (by decide)),
        decide_eq_false (ne_of_bool_true_false isAlphaC x '€' h (by decide)),
        decide_eq_false (ne_of_bool_true_false isAlphaC x '£' h (by decide))]
    rfl
  · rw [decide_eq_false (ne_of_bool_true_false isDigitC x '₹' h (by decide)),
        decide_eq_false (ne_of_bool_true_false isDigitC x '$' h (by decide)),
        decide_eq_false (ne_of_bool_true_false isDigitC x '€' h (by decide)),
        decide_eq_false (ne_of_bool_true_false isDigitC x '£' h (by decide))]
    rfl
  · decide
  · decide
  · decide
  · decide
  · decide

/-- No character of a parsed multiplication line is a newline. -/
theorem class_not_newline (x : Char)
    (h : isAlphaC x = true ∨ isDigitC x = true ∨ x = ' ' ∨ x = '-' ∨ x = '.' ∨
      x = 'x' ∨ x = '=') :
    x ≠ '\n' := by
  rcases h with h | h | rfl | rfl | rfl | rfl | rfl
  · exact ne_of_bool_true_false isAlphaC x '\n' h (by decide)
  · exact ne_of_bool_true_false isDigitC x '\n' h (by decide)
  · decide
  · decide
  · decide
  · decide
  · decide

/-! ### Small list scanners: generic facts -/

/-- Dropping the take-while prefix is drop-while. -/
theorem drop_takeWhile (p : Char → Bool) (l : List Char) :
    l.drop (l.takeWhile p).length = l.dropWhile p := by
  induction l with
  | nil => rfl
  | cons c cs ih =>
    by_cases h : p c
    · rw [List.takeWhile_cons_of_pos h, List.length_cons, List.drop_succ_cons, ih,
          List.dropWhile_cons_of_pos h]
    · rw [List.takeWhile_cons_of_neg h, List.dropWhile_cons_of_neg h]
      rfl

/-- Take-while runs through a prefix all of whose characters satisfy it. -/
theorem takeWhile_all_app (P : Char → Bool) (l X : List Char)
    (h : l.all P = true) : (l ++ X).takeWhile P = l ++ X.takeWhile P := by
  induction l with
  | nil => rfl
  | cons c cs ih =>
    rw [List.all_cons, Bool.and_eq_true] at h
    rw [List.cons_append, List.takeWhile_cons_of_pos h.1, ih h.2, List.cons_append]

/-- Leading-space removal ignores a leading space. -/
theorem dropSpaces_cons_space (l : List Char) :
    dropSpacesL (' ' :: l) = dropSpacesL l := by
  unfold dropSpacesL
  exact List.dropWhile_cons_of_pos (by decide)

/-- Leading-space removal stops at a non-space head. -/
theorem dropSpaces_cons_of (c : Char) (l : List Char) (h : isSpaceC c = false) :
    dropSpacesL (c :: l) = c :: l := by
  unfold dropSpacesL
  exact List.dropWhile_cons_of_neg (by simp [h])

/-- The default value of a last-element lookup is irrelevant on a non-empty
list. -/
theorem getLastD_irrel (l : List Char) (h : l ≠ []) (d d' : Char) :
    l.getLastD d = l.getLastD d' := by
  rw [List.getLastD_eq_getLast?, List.getLastD_eq_getLast?]
  cases hl : l.getLast? with
  | none => exact absurd (List.getLast?_eq_none_iff.mp hl) h
  | some v => rfl

/-- The last element of an append with non-empty right part. -/
theorem getLastD_app (X Y : List Char) (d : Char) (h : Y ≠ []) :
    (X ++ Y).getLastD d = Y.getLastD d := by
  rw [List.getLastD_eq_getLast?, List.getLastD_eq_getLast?, List.getLast?_append]
  cases hy : Y.getLast? with
  | none => exact absurd (List.getLast?_eq_none_iff.mp hy) h
  | some v => rfl

/-- The last element of a non-empty list is an element. -/
theorem getLastD_mem (l : List Char) (h : l ≠ []) (d : Char) : l.getLastD d ∈ l := by
  induction l generalizing d with
  | nil => exact absurd rfl h
  | cons c cs ih =>
    rw [List.getLastD_cons]
    cases hcs : cs with
    | nil =>
      subst hcs
      exact List.mem_singleton_self c
    | cons e es =>
      subst hcs
      exact List.mem_cons_of_mem c (ih (by simp) c)

/-- The head of the reversal is the last element. -/
theorem headD_reverse (l : List Char) (d : Char) :
    l.reverse.headD d = l.getLastD d := by
  rw [List.headD_eq_head?_getD, List.head?_reverse, List.getLastD_eq_getLast?]

/-- Python strip is the identity when neither end is whitespace. -/
theorem pyStrip_id (l : List Char) (h1 : isSpaceC (l.headD 'a') = false)
    (h2 : isSpaceC (l.getLastD 'a') = false) : pyStrip l = l := by
  have hgen : ∀ m : List Char, isSpaceC (m.headD 'a') = false →
      m.dropWhile (fun c => isSpaceC c) = m := by
    intro m hm
    cases m with
    | nil => rfl
    | cons c cs =>
      rw [List.headD_cons] at hm
      exact List.dropWhile_cons_of_neg (by simp [hm])
  unfold pyStrip dropSpacesL
  rw [hgen l h1, hgen l.reverse (by rw [headD_reverse]; exact h2), List.reverse_reverse]

/-- Splitting on a separator absent from the list yields the singleton. -/
theorem splitOnC_single (l : List Char) (h : ∀ x ∈ l, x ≠ '\n') :
    splitOnC '\n' l = [l] := by
  induction l with
  | nil => rfl
  | cons c cs ih =>
    have hr := ih (fun x hx => h x (List.mem_cons_of_mem c hx))
    unfold splitOnC
    rw [hr, if_neg (h c (List.mem_cons_self c cs))]

/-! ### The lone-trailing-decimal normalization is the identity on
well-dotted lines -/

/-- The tail of a well-dotted list is well-dotted. -/
theorem dotsOk_tail (c : Char) (cs : List Char) (h : dotsOk (c :: cs) = true) :
    dotsOk cs = true := by
  unfold dotsOk at h
  by_cases hc : c = '.'
  · rw [if_pos hc] at h
    cases cs with
    | nil => exact absurd h (by decide)
    | cons c2 r =>
      rw [Bool.and_eq_true] at h
      exact h.2
  · rwa [if_neg hc] at h

/-- A dot-free prefix does not affect well-dottedness. -/
theorem dotsOk_no_dot_app (X Y : List Char) (h : ∀ x ∈ X, x ≠ '.') :
    dotsOk (X ++ Y) = dotsOk Y := by
  induction X with
  | nil => rfl
  | cons c cs ih =>
    rw [List.cons_append]
    conv_lhs => unfold dotsOk
    rw [if_neg (h c (List.mem_cons_self c cs))]
    exact ih (fun x hx => h x (List.mem_cons_of_mem c hx))

/-- A dot-free list is well-dotted. -/
theorem dotsOk_of_no_dot (l : List Char) (h : ∀ x ∈ l, x ≠ '.') :
    dotsOk l = true := by
  have h2 := dotsOk_no_dot_app l [] h
  rw [List.append_nil] at h2
  rw [h2]
  rfl

/-- Well-dottedness is preserved by concatenation. -/
theorem dotsOk_append (X Y : List Char) (hX : dotsOk X = true)
    (hY : dotsOk Y = true) : dotsOk (X ++ Y) = true := by
  induction X with
  | nil => exact hY
  | cons c cs ih =>
    rw [List.cons_append]
    unfold dotsOk
    unfold dotsOk at hX
    by_cases hc : c = '.'
    · rw [if_pos hc] at hX ⊢
      cases cs with
      | nil => exact absurd hX (by decide)
      | cons c2 r =>
        rw [Bool.and_eq_true] at hX
        obtain ⟨h1, h2⟩ := hX
        rw [List.cons_append]
        show (isDigitC c2 && dotsOk (c2 :: (r ++ Y))) = true
        rw [h1, Bool.true_and]
        have h3 := ih h2
        rwa [List.cons_append] at h3
    · rw [if_neg hc] at hX ⊢
      exact ih hX

/-- On a well-dotted line the lone-trailing-decimal rewrite is the
identity. -/
theorem loneDecimalFixGo_id : ∀ (fuel : ℕ) (l : List Char),
    dotsOk l = true → loneDecimalFixGo fuel l = l
  | 0, _, _ => rfl
  | _ + 1, [], _ => rfl
  | fuel + 1, c :: cs, h => by
    unfold loneDecimalFixGo
    by_cases hc : isDigitC c = true
    · rw [if_pos hc]
      have hsplit : (c :: cs).takeWhile (fun x => isDigitC x) ++
          (c :: cs).drop ((c :: cs).takeWhile (fun x => isDigitC x)).length =
            c :: cs := by
        rw [drop_takeWhile]
        exact List.takeWhile_append_dropWhile _ _
      have hnd : ∀ x ∈ (c :: cs).takeWhile (fun x => isDigitC x), x ≠ '.' :=
        fun x hx =>
          ne_of_bool_true_false isDigitC x '.' (List.mem_takeWhile_imp hx) (by decide)
      have h2 : dotsOk ((c :: cs).takeWhile (fun x => isDigitC x) ++
          (c :: cs).drop ((c :: cs).takeWhile (fun x => isDigitC x)).length) = true := by
        rw [hsplit]
        exact h
      rw [dotsOk_no_dot_app _ _ hnd] at h2
      split
      · rename_i heq
        rw [heq] at h2
        exact absurd h2 (by decide)
      · rename_i c2 r2 heq
        rw [heq] at h2
        have h3 : (isDigitC c2 && dotsOk (c2 :: r2)) = true := by
          unfold dotsOk at h2
          rwa [if_pos rfl] at h2
        rw [Bool.and_eq_true] at h3
        obtain ⟨h4, h5⟩ := h3
        by_cases hsp : isSpaceC c2 = true
        · rw [space_not_digit c2 hsp] at h4
          exact absurd h4 (by decide)
        · rw [if_neg hsp, loneDecimalFixGo_id fuel (c2 :: r2) h5, ← heq]
          exact hsplit
      · rw [loneDecimalFixGo_id fuel _ h2]
        exact hsplit
    · rw [if_neg hc]
      rw [loneDecimalFixGo_id fuel cs (dotsOk_tail c cs h)]

/-! ### Numeral tokens: shape and splitting -/

/-- The numeral recognizer restated as an equation of `takeNum`. -/
theorem takeNum_of_numeral (n : List Char) (h : isNumeralB n = true) :
    takeNum n = some (n, []) := by
  unfold isNumeralB at h
  cases htn : takeNum n with
  | none =>
    rw [htn] at h
    simp at h
  | some pr =>
    rw [htn] at h
    obtain ⟨n', r⟩ := pr
    have h2 : (r.isEmpty && decide (n' = n)) = true := h
    rw [Bool.and_eq_true] at h2
    have hr : r = [] := List.isEmpty_iff.mp h2.1
    have hn : n' = n := of_decide_eq_true h2.2
    rw [hr, hn]

/-- A numeral is either a digit run or two digit runs around one dot. -/
theorem numeral_shape (n : List Char) (h : isNumeralB n = true) :
    (n ≠ [] ∧ n.all (fun c => isDigitC c) = true) ∨
    (∃ d₁ d₂, n = d₁ ++ '.' :: d₂ ∧ d₁ ≠ [] ∧ d₂ ≠ [] ∧
      d₁.all (fun c => isDigitC c) = true ∧ d₂.all (fun c => isDigitC c) = true) := by
  have h' := takeNum_of_numeral n h
  unfold takeNum at h'
  split_ifs at h' with h1 h2
  · right
    rw [Option.some_inj, Prod.mk.injEq] at h'
    refine ⟨n.takeWhile (fun c => isDigitC c),
      (n.drop (n.takeWhile (fun c => isDigitC c)).length).tail.takeWhile
        (fun c => isDigitC c),
      h'.1.symm, ?_, ?_, ?_, ?_⟩
    · intro hnil
      exact h1 (by rw [hnil]; rfl)
    · intro hnil
      exact h2.2 (by rw [hnil]; rfl)
    · exact List.all_eq_true.mpr (fun x hx => List.mem_takeWhile_imp hx)
    · exact List.all_eq_true.mpr (fun x hx => List.mem_takeWhile_imp hx)
  · left
    rw [Option.some_inj, Prod.mk.injEq] at h'
    refine ⟨?_, ?_⟩
    · intro hnil
      exact h1 (by rw [hnil]; rfl)
    · exact List.all_eq_true.mpr
        (fun x hx => List.mem_takeWhile_imp (by rw [h'.1]; exact hx))

/-- A numeral is non-empty. -/
theorem numeral_ne_nil (n : List Char) (h : isNumeralB n = true) : n ≠ [] := by
  rcases numeral_shape n h with ⟨hne, -⟩ | ⟨d₁, d₂, hshape, hd1, -, -, -⟩
  · exact hne
  · subst hshape
    exact List.append_ne_nil_of_left_ne_nil hd1 _

/-- Every character of a numeral is a digit or the dot. -/
theorem numeral_chars (n : List Char) (h : isNumeralB n = true) :
    ∀ x ∈ n, isDigitC x = true ∨ x = '.' := by
  rcases numeral_shape n h with ⟨-, hall⟩ | ⟨d₁, d₂, hshape, -, -, ha1, ha2⟩
  · intro x hx
    exact Or.inl (List.all_eq_true.mp hall x hx)
  · subst hshape
    intro x hx
    rcases List.mem_append.mp hx with h1 | h1
    · exact Or.inl (List.all_eq_true.mp ha1 x h1)
    · rcases List.mem_cons.mp h1 with rfl | h2
      · exact Or.inr rfl
      · exact Or.inl (List.all_eq_true.mp ha2 x h2)

/-- A numeral starts with a digit. -/
theorem numeral_head_digit (n : List Char) (h : isNumeralB n = true) (d : Char) :
    isDigitC (n.headD d) = true := by
  rcases numeral_shape n h with ⟨hne, hall⟩ | ⟨d₁, d₂, hshape, hd1, -, ha1, -⟩
  · cases n with
    | nil => exact absurd rfl hne
    | cons c cs =>
      rw [List.headD_cons]
      exact List.all_eq_true.mp hall c (List.mem_cons_self c cs)
  · subst hshape
    cases d₁ with
    | nil => exact absurd rfl hd1
    | cons e es =>
      rw [List.cons_append, List.headD_cons]
      exact List.all_eq_true.mp ha1 e (List.mem_cons_self e es)

/-- A numeral ends with a digit. -/
theorem numeral_last_digit (n : List Char) (h : isNumeralB n = true) (d : Char) :
    isDigitC (n.getLastD d) = true := by
  rcases numeral_shape n h with ⟨hne, hall⟩ | ⟨d₁, d₂, hshape, -, hd2, -, ha2⟩
  · exact List.all_eq_true.mp hall _ (getLastD_mem n hne d)
  · subst hshape
    rw [getLastD_app d₁ ('.' :: d₂) d (by simp), List.getLastD_cons]
    exact List.all_eq_true.mp ha2 _ (getLastD_mem d₂ hd2 '.')

/-- The greedy numeral scan consumes exactly a leading numeral when the
boundary character is neither a digit nor a dot. -/
theorem takeNum_app (n rest : List Char) (h : isNumeralB n = true)
    (hb1 : isDigitC (rest.headD 'A') = false) (hb2 : rest.headD 'A' ≠ '.') :
    takeNum (n ++ rest) = some (n, rest) := by
  have htw0 : rest.takeWhile (fun c => isDigitC c) = [] := by
    cases rest with
    | nil => rfl
    | cons c cs =>
      rw [List.headD_cons] at hb1
      exact List.takeWhile_cons_of_neg (by simp [hb1])
  have hhd : ¬ rest.head? = some '.' := by
    cases rest with
    | nil => simp
    | cons c cs =>
      rw [List.headD_cons] at hb2
      rw [List.head?_cons]
      intro hcontra
      exact hb2 (Option.some_inj.mp hcontra)
  rcases numeral_shape n h with ⟨hne, hall⟩ | ⟨d₁, d₂, hshape, hd1, hd2, ha1, ha2⟩
  · have htw : (n ++ rest).takeWhile (fun c => isDigitC c) = n := by
      rw [takeWhile_all_app _ n rest hall, htw0, List.append_nil]
    unfold takeNum
    rw [htw, List.drop_left]
    rw [if_neg (by simp [hne]), if_neg (by rintro ⟨hh, -⟩; exact hhd hh)]
  · subst hshape
    have hassoc : (d₁ ++ '.' :: d₂) ++ rest = d₁ ++ '.' :: (d₂ ++ rest) := by
      simp
    rw [hassoc]
    have htw : (d₁ ++ '.' :: (d₂ ++ rest)).takeWhile (fun c => isDigitC c) = d₁ := by
      rw [takeWhile_all_app _ d₁ _ ha1, List.takeWhile_cons_of_neg (by decide),
          List.append_nil]
    have htw2 : (d₂ ++ rest).takeWhile (fun c => isDigitC c) = d₂ := by
      rw [takeWhile_all_app _ d₂ rest ha2, htw0, List.append_nil]
    unfold takeNum
    rw [htw, List.drop_left, List.tail_cons, htw2, List.drop_left]
    rw [if_neg (by simp [hd1]), if_pos ⟨rfl, by simp [hd2]⟩]

/-! ### Completeness of the bespoke multiplication-pattern matcher -/

/-- On a suffix of a plain name (letters and spaces, ending in a letter),
space removal exposes a letter. -/
theorem dropSpaces_suffix (Z : List Char) :
    ∀ suf : List Char, (∀ x ∈ suf, isAlphaC x = true ∨ x = ' ') →
      isAlphaC (suf.getLastD ' ') = true →
      ∃ a r, dropSpacesL (suf ++ Z) = a :: r ∧ isAlphaC a = true
  | [], _, hlast => absurd hlast (by decide)
  | c :: cs, hall, hlast => by
    rcases hall c (List.mem_cons_self c cs) with hc | hc
    · refine ⟨c, cs ++ Z, ?_, hc⟩
      rw [List.cons_append]
      exact dropSpaces_cons_of c _ (alpha_not_space c hc)
    · subst hc
      have hlast' : isAlphaC (cs.getLastD ' ') = true := by
        rw [List.getLastD_cons] at hlast
        cases cs with
        | nil => exact absurd hlast (by decide)
        | cons e es =>
          rw [List.getLastD_cons] at hlast ⊢
          exact hlast
      rw [List.cons_append, dropSpaces_cons_space]
      exact dropSpaces_suffix Z cs
        (fun x hx => hall x (List.mem_cons_of_mem ' ' hx)) hlast'

/-- The close attempt succeeds when space removal exposes a separator whose
tail completes the bare multiplication. -/
theorem multNameClose_some (rest : List Char) (c : Char) (r' : List Char)
    (q p t : List Char) (hds : dropSpacesL rest = c :: r')
    (hc : (c = '-' || c = ':') = true) (htail : multTail r' = some (q, p, t)) :
    multNameClose rest = some (q, p, t) := by
  unfold multNameClose
  rw [hds]
  simp [hc, htail]

/-- The close attempt fails when space removal exposes a non-separator. -/
theorem multNameClose_none (rest : List Char) (a : Char) (r : List Char)
    (hds : dropSpacesL rest = a :: r) (hne : (a = '-' || a = ':') = false) :
    multNameClose rest = none := by
  unfold multNameClose
  rw [hds]
  simp [hne]

/-- Step lemma: the name scan closes when the close attempt succeeds. -/
theorem multNameGo_close (fuel : ℕ) (acc rest : List Char) (q p t : List Char)
    (h : multNameClose rest = some (q, p, t)) :
    multNameGo (fuel + 1) acc rest = some (acc, q, p, t) := by
  simp only [multNameGo, h]

/-- Step lemma: the name scan extends by one class character when the close
attempt fails. -/
theorem multNameGo_open (fuel : ℕ) (acc : List Char) (c : Char) (cs : List Char)
    (h : multNameClose (c :: cs) = none) (hcl : multNameClass c = true) :
    multNameGo (fuel + 1) acc (c :: cs) = multNameGo fuel (acc ++ [c]) cs := by
  simp only [multNameGo, h, hcl, if_true]

/-- Completeness of the lazy name scan on an input assembled from a plain
name, the separator, and a bare multiplication. -/
theorem multNameGo_complete (R q p t : List Char)
    (hbare : bareMultMatch R = some (q, p, t)) (hR : dropSpacesL R = R) :
    ∀ (suf : List Char) (fuel : ℕ) (pre : List Char), suf.length < fuel →
      (∀ x ∈ suf, isAlphaC x = true ∨ x = ' ') →
      (suf = [] ∨ isAlphaC (suf.getLastD ' ') = true) →
      multNameGo fuel pre (suf ++ (' ' :: '-' :: ' ' :: R)) =
        some (pre ++ suf, q, p, t)
  | [], fuel, pre, hfuel, _, _ => by
    obtain ⟨f, rfl⟩ : ∃ f, fuel = f + 1 := by
      cases fuel with
      | zero => exact absurd hfuel (by simp)
      | succ f => exact ⟨f, rfl⟩
    rw [List.nil_append, List.append_nil]
    have hds : dropSpacesL (' ' :: '-' :: ' ' :: R) = '-' :: (' ' :: R) := by
      rw [dropSpaces_cons_space, dropSpaces_cons_of '-' _ (by decide)]
    have htail : multTail (' ' :: R) = some (q, p, t) := by
      unfold multTail
      rw [dropSpaces_cons_space, hR, hbare]
    exact multNameGo_close f pre _ q p t
      (multNameClose_some _ '-' (' ' :: R) q p t hds (by decide) htail)
  | c :: cs, fuel, pre, hfuel, hall, hlast => by
    obtain ⟨f, rfl⟩ : ∃ f, fuel = f + 1 := by
      cases fuel with
      | zero => exact absurd hfuel (by simp)
      | succ f => exact ⟨f, rfl⟩
    have hlast' : isAlphaC ((c :: cs).getLastD ' ') = true := by
      rcases hlast with h | h
      · exact absurd h (by simp)
      · exact h
    obtain ⟨a, r, hdrop, ha⟩ :=
      dropSpaces_suffix (' ' :: '-' :: ' ' :: R) (c :: cs) hall hlast'
    rw [List.cons_append] at hdrop ⊢
    have hcs_last : cs = [] ∨ isAlphaC (cs.getLastD ' ') = true := by
      cases cs with
      | nil => exact Or.inl rfl
      | cons e es =>
        right
        rw [List.getLastD_cons]
        rw [List.getLastD_cons, List.getLastD_cons] at hlast'
        exact hlast'
    have hclass : multNameClass c = true :=
      multNameClass_of c (hall c (List.mem_cons_self c cs))
    have hne : (a = '-' || a = ':') = false := by
      rw [decide_eq_false (ne_of_bool_true_false isAlphaC a '-' ha (by decide)),
          decide_eq_false (ne_of_bool_true_false isAlphaC a ':' ha (by decide))]
      rfl
    rw [multNameGo_open f pre c _ (multNameClose_none _ a r hdrop hne) hclass,
        multNameGo_complete R q p t hbare hR cs f (pre ++ [c])
          (by simpa using Nat.lt_of_succ_lt_succ hfuel)
          (fun x hx => hall x (List.mem_cons_of_mem c hx)) hcs_last,
        List.append_assoc, List.singleton_append]

/-- The bare multiplication matcher accepts a line assembled from three
numerals with the `x` and `=` separators. -/
theorem bareMultMatch_build (q p t : List Char)
    (hq : isNumeralB q = true) (hp : isNumeralB p = true)
    (ht : isNumeralB t = true) :
    bareMultMatch (q ++ ' ' :: 'x' :: ' ' :: (p ++ ' ' :: '=' :: ' ' :: t)) =
      some (q, p, t) := by
  obtain ⟨pc, p', rfl⟩ : ∃ c cs, p = c :: cs := by
    cases hp' : p with
    | nil => exact absurd hp' (numeral_ne_nil p hp)
    | cons c cs => exact ⟨c, cs, rfl⟩
  obtain ⟨tc, t', rfl⟩ : ∃ c cs, t = c :: cs := by
    cases ht' : t with
    | nil => exact absurd ht' (numeral_ne_nil t ht)
    | cons c cs => exact ⟨c, cs, rfl⟩
  have hpc : isDigitC pc = true := numeral_head_digit _ hp 'A'
  have htc : isDigitC tc = true := numeral_head_digit _ ht 'A'
  have h1 : takeNum (q ++ ' ' :: 'x' :: ' ' ::
      ((pc :: p') ++ ' ' :: '=' :: ' ' :: (tc :: t'))) =
      some (q, ' ' :: 'x' :: ' ' :: ((pc :: p') ++ ' ' :: '=' :: ' ' :: (tc :: t'))) :=
    takeNum_app _ _ hq (by rw [List.headD_cons]; decide)
      (by rw [List.headD_cons]; decide)
  have h2 : dropSpacesL (' ' :: 'x' :: ' ' ::
      ((pc :: p') ++ ' ' :: '=' :: ' ' :: (tc :: t'))) =
      'x' :: (' ' :: ((pc :: p') ++ ' ' :: '=' :: ' ' :: (tc :: t'))) := by
    rw [dropSpaces_cons_space, dropSpaces_cons_of 'x' _ (by decide)]
  have h3 : dropSpacesL (' ' :: ((pc :: p') ++ ' ' :: '=' :: ' ' :: (tc :: t'))) =
      (pc :: p') ++ ' ' :: '=' :: ' ' :: (tc :: t') := by
    rw [dropSpaces_cons_space, List.cons_append,
        dropSpaces_cons_of pc _ (digit_not_space pc hpc)]
  have h4 : takeNum ((pc :: p') ++ ' ' :: '=' :: ' ' :: (tc :: t')) =
      some (pc :: p', ' ' :: '=' :: ' ' :: (tc :: t')) :=
    takeNum_app _ _ hp (by rw [List.headD_cons]; decide)
      (by rw [List.headD_cons]; decide)
  have h5 : dropSpacesL (' ' :: '=' :: ' ' :: (tc :: t')) =
      '=' :: (' ' :: (tc :: t')) := by
    rw [dropSpaces_cons_space, dropSpaces_cons_of '=' _ (by decide)]
  have h6 : dropSpacesL (' ' :: (tc :: t')) = tc :: t' := by
    rw [dropSpaces_cons_space, dropSpaces_cons_of tc _ (digit_not_space tc htc)]
  have h7 : takeNum (tc :: t') = some (tc :: t', []) := takeNum_of_numeral _ ht
  unfold bareMultMatch
  simp only [h1, h2, h3, h4, h5, h6, h7]
  simp

/-- The full multiplication pattern matches a name–separator–bare-mult line
with the whole name captured. -/
theorem multMatch_build (c₀ : Char) (name' : List Char) (R q p t : List Char)
    (hc₀ : isAlphaC c₀ = true)
    (hall : ∀ x ∈ name', isAlphaC x = true ∨ x = ' ')
    (hlast : name' = [] ∨ isAlphaC (name'.getLastD ' ') = true)
    (hbare : bareMultMatch R = some (q, p, t)) (hR : dropSpacesL R = R) :
    multMatch (c₀ :: (name' ++ (' ' :: '-' :: ' ' :: R))) =
      some (some (c₀ :: name'), q, p, t) := by
  have hgo := multNameGo_complete R q p t hbare hR name'
    ((name' ++ (' ' :: '-' :: ' ' :: R)).length + 1) [c₀]
    (by simp only [List.length_append, List.length_cons]; omega) hall hlast
  unfold multMatch
  simp only [hc₀, if_true, hgo, List.singleton_append]
  rfl

/-! ### The assembled multiplication line: normalization is the identity -/

/-- A numeral is well-dotted. -/
theorem dotsOk_numeral (n : List Char) (h : isNumeralB n = true) :
    dotsOk n = true := by
  rcases numeral_shape n h with ⟨-, hall⟩ | ⟨d₁, d₂, hshape, -, hd2, ha1, ha2⟩
  · exact dotsOk_of_no_dot n (fun x hx =>
      ne_of_bool_true_false isDigitC x '.' (List.all_eq_true.mp hall x hx) (by decide))
  · subst hshape
    have hnd1 : ∀ x ∈ d₁, x ≠ '.' := fun x hx =>
      ne_of_bool_true_false isDigitC x '.' (List.all_eq_true.mp ha1 x hx) (by decide)
    rw [dotsOk_no_dot_app d₁ _ hnd1]
    cases d₂ with
    | nil => exact absurd rfl hd2
    | cons e es =>
      conv_lhs => unfold dotsOk
      rw [if_pos rfl]
      show (isDigitC e && dotsOk (e :: es)) = true
      rw [List.all_eq_true.mp ha2 e (List.mem_cons_self e es), Bool.true_and]
      exact dotsOk_of_no_dot _ (fun x hx =>
        ne_of_bool_true_false isDigitC x '.' (List.all_eq_true.mp ha2 x hx) (by decide))

/-- The multiplication line in right-nested form. -/
theorem mkMultLine_form (name q p t : List Char) :
    mkMultLine name q p t =
      name ++ (' ' :: '-' :: ' ' ::
        (q ++ (' ' :: 'x' :: ' ' :: (p ++ (' ' :: '=' :: ' ' :: t))))) := by
  unfold mkMultLine
  simp only [List.append_assoc]
  rfl

/-- Character classification of an assembled multiplication line. -/
theorem multLine_chars (name q p t : List Char)
    (hname : ∀ x ∈ name, isAlphaC x = true ∨ x = ' ')
    (hq : isNumeralB q = true) (hp : isNumeralB p = true)
    (ht : isNumeralB t = true) :
    ∀ x ∈ name ++ (' ' :: '-' :: ' ' ::
        (q ++ (' ' :: 'x' :: ' ' :: (p ++ (' ' :: '=' :: ' ' :: t))))),
      isAlphaC x = true ∨ isDigitC x = true ∨ x = ' ' ∨ x = '-' ∨ x = '.' ∨
        x = 'x' ∨ x = '=' := by
  intro x hx
  have hnum : ∀ n : List Char, isNumeralB n = true → x ∈ n →
      (isAlphaC x = true ∨ isDigitC x = true ∨ x = ' ' ∨ x = '-' ∨ x = '.' ∨
        x = 'x' ∨ x = '=') := by
    intro n hn hxn
    rcases numeral_chars n hn x hxn with h | h
    · exact Or.inr (Or.inl h)
    · exact Or.inr (Or.inr (Or.inr (Or.inr (Or.inl h))))
  rcases List.mem_append.mp hx with h | h
  · rcases hname x h with h' | h'
    · exact Or.inl h'
    · exact Or.inr (Or.inr (Or.inl h'))
  · rcases List.mem_cons.mp h with rfl | h
    · exact Or.inr (Or.inr (Or.inl rfl))
    rcases List.mem_cons.mp h with rfl | h
    · exact Or.inr (Or.inr (Or.inr (Or.inl rfl)))
    rcases List.mem_cons.mp h with rfl | h
    · exact Or.inr (Or.inr (Or.inl rfl))
    rcases List.mem_append.mp h with h | h
    · exact hnum q hq h
    rcases List.mem_cons.mp h with rfl | h
    · exact Or.inr (Or.inr (Or.inl rfl))
    rcases List.mem_cons.mp h with rfl | h
    · exact Or.inr (Or.inr (Or.inr (Or.inr (Or.inr (Or.inl rfl)))))
    rcases List.mem_cons.mp h with rfl | h
    · exact Or.inr (Or.inr (Or.inl rfl))
    rcases List.mem_append.mp h with h | h
    · exact hnum p hp h
    rcases List.mem_cons.mp h with rfl | h
    · exact Or.inr (Or.inr (Or.inl rfl))
    rcases List.mem_cons.mp h with rfl | h
    · exact Or.inr (Or.inr (Or.inr (Or.inr (Or.inr (Or.inr rfl)))))
    rcases List.mem_cons.mp h with rfl | h
    · exact Or.inr (Or.inr (Or.inl rfl))
    exact hnum t ht h

/-- Parse of an assembled named-multiplication line: the deterministic
parser emits exactly the one enhanced item, with confidence 0.95 and no
arithmetic check. -/
theorem detParse_mult_line (c₀ : Char) (name' q p t : List Char)
    (hc₀ : isAlphaC c₀ = true)
    (hall : ∀ x ∈ name', isAlphaC x = true ∨ x = ' ')
    (hlastA : isAlphaC ((c₀ :: name').getLastD ' ') = true)
    (hq : isNumeralB q = true) (hp : isNumeralB p = true)
    (ht : isNumeralB t = true)
    (hskip : skipLineB (mkMultLine (c₀ :: name') q p t) = false) :
    deterministicParseItems (mkMultLine (c₀ :: name') q p t) =
      [enhanceItem (c₀ :: name') (parseNum q) (parseNum p) (parseNum t)
        (("pieces").data) (95/100)] := by
  rw [mkMultLine_form] at hskip ⊢
  rw [List.cons_append] at hskip ⊢
  have hqn := numeral_ne_nil q hq
  have hpn := numeral_ne_nil p hp
  have htn := numeral_ne_nil t ht
  have hnameall : ∀ x ∈ c₀ :: name', isAlphaC x = true ∨ x = ' ' := by
    intro x hx
    rcases List.mem_cons.mp hx with rfl | hx'
    · exact Or.inl hc₀
    · exact hall x hx'
  have hchars := multLine_chars (c₀ :: name') q p t hnameall hq hp ht
  have hchars' : ∀ x ∈ c₀ :: (name' ++ (' ' :: '-' :: ' ' ::
      (q ++ (' ' :: 'x' :: ' ' :: (p ++ (' ' :: '=' :: ' ' :: t)))))),
      isAlphaC x = true ∨ isDigitC x = true ∨ x = ' ' ∨ x = '-' ∨ x = '.' ∨
        x = 'x' ∨ x = '=' := fun x hx => hchars x hx
  have hnlf : ∀ x ∈ c₀ :: (name' ++ (' ' :: '-' :: ' ' ::
      (q ++ (' ' :: 'x' :: ' ' :: (p ++ (' ' :: '=' :: ' ' :: t)))))), x ≠ '\n' :=
    fun x hx => class_not_newline x (hchars' x hx)
  have hcur : currencyClean (c₀ :: (name' ++ (' ' :: '-' :: ' ' ::
      (q ++ (' ' :: 'x' :: ' ' :: (p ++ (' ' :: '=' :: ' ' :: t))))))) =
      c₀ :: (name' ++ (' ' :: '-' :: ' ' ::
      (q ++ (' ' :: 'x' :: ' ' :: (p ++ (' ' :: '=' :: ' ' :: t)))))) := by
    unfold currencyClean
    exact List.filter_eq_self.mpr (fun a ha => class_not_currency a (hchars' a ha))
  have hhead : isSpaceC ((c₀ :: (name' ++ (' ' :: '-' :: ' ' ::
      (q ++ (' ' :: 'x' :: ' ' :: (p ++ (' ' :: '=' :: ' ' :: t))))))).headD 'a') =
      false := by
    rw [List.headD_cons]
    exact alpha_not_space c₀ hc₀
  have hlastL : isSpaceC ((c₀ :: (name' ++ (' ' :: '-' :: ' ' ::
      (q ++ (' ' :: 'x' :: ' ' :: (p ++ (' ' :: '=' :: ' ' :: t))))))).getLastD 'a') =
      false := by
    have s1 := getLastD_app (c₀ :: name') (' ' :: '-' :: ' ' ::
      (q ++ (' ' :: 'x' :: ' ' :: (p ++ (' ' :: '=' :: ' ' :: t))))) 'a' (by simp)
    have s2 := getLastD_app [' ', '-', ' ']
      (q ++ (' ' :: 'x' :: ' ' :: (p ++ (' ' :: '=' :: ' ' :: t)))) 'a'
      (List.append_ne_nil_of_left_ne_nil hqn _)
    have s3 := getLastD_app q (' ' :: 'x' :: ' ' :: (p ++ (' ' :: '=' :: ' ' :: t)))
      'a' (by simp)
    have s4 := getLastD_app [' ', 'x', ' '] (p ++ (' ' :: '=' :: ' ' :: t)) 'a'
      (List.append_ne_nil_of_left_ne_nil hpn _)
    have s5 := getLastD_app p (' ' :: '=' :: ' ' :: t) 'a' (by simp)
    have s6 := getLastD_app [' ', '=', ' '] t 'a' htn
    have hlast : (c₀ :: (name' ++ (' ' :: '-' :: ' ' ::
        (q ++ (' ' :: 'x' :: ' ' :: (p ++ (' ' :: '=' :: ' ' :: t))))))).getLastD 'a' =
        t.getLastD 'a' :=
      s1.trans (s2.trans (s3.trans (s4.trans (s5.trans s6))))
    rw [hlast]
    exact digit_not_space _ (numeral_last_digit t ht 'a')
  have hstrip := pyStrip_id _ hhead hlastL
  have hdots : dotsOk (c₀ :: (name' ++ (' ' :: '-' :: ' ' ::
      (q ++ (' ' :: 'x' :: ' ' :: (p ++ (' ' :: '=' :: ' ' :: t))))))) = true := by
    have dn : dotsOk (c₀ :: name') = true :=
      dotsOk_of_no_dot _ (fun x hx => by
        rcases hnameall x hx with h | rfl
        · exact ne_of_bool_true_false isAlphaC x '.' h (by decide)
        · decide)
    have dq := dotsOk_numeral q hq
    have dp := dotsOk_numeral p hp
    have dt := dotsOk_numeral t ht
    have d6 : dotsOk ([' ', '=', ' '] ++ t) = true :=
      dotsOk_append _ _ (by decide) dt
    have d5 : dotsOk (p ++ (' ' :: '=' :: ' ' :: t)) = true := dotsOk_append _ _ dp d6
    have d4 : dotsOk ([' ', 'x', ' '] ++ (p ++ (' ' :: '=' :: ' ' :: t))) = true :=
      dotsOk_append _ _ (by decide) d5
    have d3 : dotsOk (q ++ (' ' :: 'x' :: ' ' :: (p ++ (' ' :: '=' :: ' ' :: t)))) =
        true := dotsOk_append _ _ dq d4
    have d2 : dotsOk ([' ', '-', ' '] ++
        (q ++ (' ' :: 'x' :: ' ' :: (p ++ (' ' :: '=' :: ' ' :: t))))) = true :=
      dotsOk_append _ _ (by decide) d3
    exact dotsOk_append (c₀ :: name') _ dn d2
  have hfix : loneDecimalFix (c₀ :: (name' ++ (' ' :: '-' :: ' ' ::
      (q ++ (' ' :: 'x' :: ' ' :: (p ++ (' ' :: '=' :: ' ' :: t))))))) =
      c₀ :: (name' ++ (' ' :: '-' :: ' ' ::
      (q ++ (' ' :: 'x' :: ' ' :: (p ++ (' ' :: '=' :: ' ' :: t)))))) := by
    unfold loneDecimalFix
    exact loneDecimalFixGo_id _ _ hdots
  have hnorm : normLine (c₀ :: (name' ++ (' ' :: '-' :: ' ' ::
      (q ++ (' ' :: 'x' :: ' ' :: (p ++ (' ' :: '=' :: ' ' :: t))))))) =
      c₀ :: (name' ++ (' ' :: '-' :: ' ' ::
      (q ++ (' ' :: 'x' :: ' ' :: (p ++ (' ' :: '=' :: ' ' :: t)))))) := by
    unfold normLine
    rw [hcur, hstrip, hfix]
  have hlen3 : ¬ (c₀ :: (name' ++ (' ' :: '-' :: ' ' ::
      (q ++ (' ' :: 'x' :: ' ' :: (p ++ (' ' :: '=' :: ' ' :: t))))))).length < 3 := by
    simp only [List.length_cons, List.length_append]
    omega
  have hlast' : name' = [] ∨ isAlphaC (name'.getLastD ' ') = true := by
    cases name' with
    | nil => exact Or.inl rfl
    | cons e es =>
      right
      rw [List.getLastD_cons]
      rw [List.getLastD_cons, List.getLastD_cons] at hlastA
      exact hlastA
  have hR : dropSpacesL (q ++ (' ' :: 'x' :: ' ' ::
      (p ++ (' ' :: '=' :: ' ' :: t)))) =
      q ++ (' ' :: 'x' :: ' ' :: (p ++ (' ' :: '=' :: ' ' :: t))) := by
    obtain ⟨qc, q', rfl⟩ : ∃ c cs, q = c :: cs := by
      cases hq' : q with
      | nil => exact absurd hq' hqn
      | cons c cs => exact ⟨c, cs, rfl⟩
    rw [List.cons_append]
    exact dropSpaces_cons_of qc _
      (digit_not_space qc (numeral_head_digit _ hq 'A'))
  have hmm := multMatch_build c₀ name'
    (q ++ (' ' :: 'x' :: ' ' :: (p ++ (' ' :: '=' :: ' ' :: t)))) q p t
    hc₀ hall hlast' (bareMultMatch_build q p t hq hp ht) hR
  have hlines : detLines (c₀ :: (name' ++ (' ' :: '-' :: ' ' ::
      (q ++ (' ' :: 'x' :: ' ' :: (p ++ (' ' :: '=' :: ' ' :: t))))))) =
      [c₀ :: (name' ++ (' ' :: '-' :: ' ' ::
      (q ++ (' ' :: 'x' :: ' ' :: (p ++ (' ' :: '=' :: ' ' :: t)))))) ] := by
    unfold detLines
    rw [splitOnC_single _ hnlf]
    simp [hstrip]
  have hstep := detStep_mult_emit _ (some (c₀ :: name')) q p t hnorm hlen3 hskip hmm
  have hstripname : pyStrip (c₀ :: name') = c₀ :: name' := by
    apply pyStrip_id
    · rw [List.headD_cons]
      exact alpha_not_space c₀ hc₀
    · rw [getLastD_irrel _ (by simp) 'a' ' ']
      exact alpha_not_space _ hlastA
  unfold deterministicParseItems detFold
  rw [hlines]
  show (detStep { items := [], keys := [], prev := none } _).items = _
  rw [show ({ items := [], keys := [], prev := none } : DetState) = detInit from rfl]
  rw [hstep]
  simp only [Option.getD_some]
  rw [hstripname]

/-- **C1** (amended).  For every line `"Name - Q x P = T"` with a plain
alphabetic name (letters and single spaces, starting and ending with a
letter) that does not match the skip pattern, and decimal numerals
`Q, P, T`: the deterministic parser emits exactly one item with
quantity `Q`, unit_price `P`, total_price `T`, unit `pieces` and
confidence 0.95 — with no arithmetic tolerance check — whose `item_name`
is the *cleaned* name (whitespace-collapsed, title-cased, OCR-corrected),
not the verbatim trimmed name.  In particular
`'Chicken - 2 x 140 = 280'` yields the claimed item. -/
theorem C1_named_mult :
    (∀ name q p t : List Char,
       isNiceNameB name = true → isNumeralB q = true → isNumeralB p = true →
       isNumeralB t = true → skipLineB (mkMultLine name q p t) = false →
       deterministicParseItems (mkMultLine name q p t) =
         [enhanceItem name (parseNum q) (parseNum p) (parseNum t)
            (("pieces").data) (95/100)]) ∧
    deterministicParseItems chickenLine =
      [{ item_name := ("Chicken").data, quantity := 2, unit := ("pieces").data,
         unit_price := 140, total_price := 280, confidence := 19/20,
         category := ("meat_seafood").data, expiryDays := 3 }] := by
  constructor
  · intro name q p t hname hq hp ht hskip
    unfold isNiceNameB at hname
    simp only [Bool.and_eq_true] at hname
    obtain ⟨⟨⟨hneB, hallB⟩, hheadB⟩, hlastB⟩ := hname
    have hnn : name ≠ [] := by
      intro hnil
      rw [hnil] at hneB
      exact absurd hneB (by decide)
    obtain ⟨c₀, name', rfl⟩ : ∃ c cs, name = c :: cs := by
      cases hname' : name with
      | nil => exact absurd hname' hnn
      | cons c cs => exact ⟨c, cs, rfl⟩
    have hgood : ∀ x ∈ c₀ :: name', isAlphaC x = true ∨ x = ' ' := by
      intro x hx
      have h2 := List.all_eq_true.mp hallB x hx
      rw [Bool.or_eq_true] at h2
      rcases h2 with h | h
      · exact Or.inl h
      · exact Or.inr (of_decide_eq_true h)
    have hc₀ : isAlphaC c₀ = true := by
      rw [List.headD_cons] at hheadB
      exact hheadB
    exact detParse_mult_line c₀ name' q p t hc₀
      (fun x hx => hgood x (List.mem_cons_of_mem c₀ hx)) hlastB hq hp ht hskip
  · decide

/-- Witness for C1: the amended theorem applied at the spec's own example
line, name `"Chicken"`, `2 x 140 = 280`. -/
theorem C1_named_mult_witness :
    deterministicParseItems
        (mkMultLine (("Chicken").data) (("2").data) (("140").data) (("280").data)) =
      [enhanceItem (("Chicken").data) (parseNum (("2").data))
        (parseNum (("140").data)) (parseNum (("280").data))
        (("pieces").data) (95/100)] :=
  C1_named_mult.1 (("Chicken").data) (("2").data) (("140").data) (("280").data)
    (by decide) (by decide) (by decide) (by decide) (by decide)

/-- Counterexample to **C1** as stated: on `'chicken - 2 x 140 = 280'` the
emitted item name is the title-cased `"Chicken"`, not the trimmed name
`"chicken"`; and `'Date Cake - 2 x 3 = 6'` (name starting with the skip
keyword `date`, arithmetic exact) emits nothing. -/
theorem C1_counterexample :
    (deterministicParseItems chickenLowerLine).map Item.item_name =
      [("Chicken").data] ∧
    ("Chicken").data ≠ ("chicken").data ∧
    deterministicParseItems dateCakeLine = [] := by
  refine ⟨by decide, by decide, by decide⟩

end AWSBackend
